import Mathlib

/-!
Verification development for the indra_db excerpt: a shallow embedding of the
curation service (curation.py), the statement distillation engine
(distill_statements.py), the TAS knowledgebase manager
(knowledgebase_manager.py), the preassembly batch submitter
(preassembly_submitter.py) and the dump-listing contract exercised by
test_dump_manager.py, together with theorems settling the behavioural claims
about them.

Strings are modelled as lists of characters (Python str), integers as Nat/Int,
Python sets and dicts as lists (a set is a list whose order stands in for the
arbitrary iteration order; dict update keeps the first position of a key).
Python exceptions (IntegrityError re-raise, AssertionError, ValueError) are
modelled with Option/Except.
-/

namespace IndraDb

/-! ## Curation service: submit_curation error classification (curation.py lines 48-64)

The except-branch of submit_curation takes the second line of the integrity
error message and matches it with
re.match("DETAIL: .*?\\(pa_hash\\)=\\((\\d+)\\).*?not present.*?pa.*?", detail_line).
The regex is embedded as an executable matcher: re.match anchors the literal
"DETAIL: " at the start; the lazy ".*?" then looks for the earliest occurrence
of "(pa_hash)=(" followed by a maximal nonempty digit run and ")", such that
the remainder contains "not present" and then "pa" in order; on failure at one
occurrence the engine backtracks to the next occurrence.  The trailing lazy
".*?" matches the empty string.  The captured group is the digit run. -/

/-- Characters of the literal regex prefix "DETAIL: ". -/
def detailPat : List Char := "DETAIL: ".data

/-- Characters of the literal regex piece "(pa_hash)=(". -/
def paHashPat : List Char := "(pa_hash)=(".data

/-- Characters of the literal regex piece "not present". -/
def notPresentPat : List Char := "not present".data

/-- Characters of the literal regex piece "pa". -/
def paNeedle : List Char := "pa".data

/-- Whether pat occurs as a contiguous substring of s. -/
def containsPat (pat : List Char) : List Char → Bool
  | [] => pat.isEmpty
  | c :: rest => pat.isPrefixOf (c :: rest) || containsPat pat rest

/-- Drop everything up to and including the first occurrence of pat;
none when pat does not occur. -/
def dropThrough (pat : List Char) : List Char → Option (List Char)
  | [] => if pat.isEmpty then some [] else none
  | c :: rest =>
    if pat.isPrefixOf (c :: rest) then some ((c :: rest).drop pat.length)
    else dropThrough pat rest

/-- The regex tail ".*?not present.*?pa.*?": the remainder after the captured
group must contain "not present" and, after it, "pa". -/
def tailMatches (s : List Char) : Bool :=
  match dropThrough notPresentPat s with
  | none => false
  | some r => containsPat paNeedle r

/-- Split off the maximal leading run of decimal digits ("(\\d+)" is greedy and
must be followed by ")", so only the maximal run can match). -/
def takeDigits : List Char → List Char × List Char
  | [] => ([], [])
  | c :: rest =>
    if c.isDigit then
      let (ds, r) := takeDigits rest
      (c :: ds, r)
    else ([], c :: rest)

/-- Scan for the earliest occurrence of "(pa_hash)=(" followed by a nonempty
digit run, ")", and a matching tail; on failure continue at the next
character, exactly as the backtracking engine advances the lazy ".*?". -/
def scanPaHash : List Char → Option (List Char)
  | [] => none
  | c :: rest =>
    if paHashPat.isPrefixOf (c :: rest) then
      let after := (c :: rest).drop paHashPat.length
      let (ds, r) := takeDigits after
      match r with
      | ')' :: r2 =>
        if ds.isEmpty then scanPaHash rest
        else if tailMatches r2 then some ds
        else scanPaHash rest
      | _ => scanPaHash rest
    else scanPaHash rest

/-- The embedded regex match of curation.py line 54: anchored "DETAIL: ",
then the scan for the pa_hash group.  Returns the captured digit string. -/
def reMatchDetail (line : List Char) : Option (List Char) :=
  if detailPat.isPrefixOf line then scanPaHash (line.drop detailPat.length)
  else none

/-- Integer value of a digit string, as computed by Python int(h). -/
def digitsVal (l : List Char) : Nat :=
  l.foldl (fun a c => 10 * a + (c.toNat - 48)) 0

/-- Outcome of the except-branch of submit_curation: re-raise the original
IntegrityError, fail the assertion, or raise BadHashError. -/
inductive SubmitOutcome where
  | reraised : SubmitOutcome
  | assertFailed : SubmitOutcome
  | badHashError : Int → SubmitOutcome
deriving DecidableEq

/-- The except-branch of submit_curation (curation.py lines 50-63) applied to
the requested hash and the DETAIL line of the integrity error: no regex match
re-raises the original error; a match compares the captured hash, as an
integer, with hash_val: equal raises BadHashError and unequal fails the
assertion at line 60. -/
def submit_curation_on_error (hash_val : Int) (detail_line : List Char) : SubmitOutcome :=
  match reMatchDetail detail_line with
  | none => .reraised
  | some ds =>
    if (digitsVal ds : Int) = hash_val then .badHashError (digitsVal ds)
    else .assertFailed

/-- The part of a negative-hash DETAIL line before the digits, written as an
explicit character list so the scan can be stepped through it: the text
DETAIL with two spaces, Key, and the parenthesised pa_hash value opening with
a minus sign. -/
def negDetailPre : List Char :=
  ['D', 'E', 'T', 'A', 'I', 'L', ':', ' ', ' ', 'K', 'e', 'y', ' ',
   '(', 'p', 'a', '_', 'h', 'a', 's', 'h', ')', '=', '(', '-']

/-- The part of a negative-hash DETAIL line after the digits: the closing
parenthesis and the text: is not present in table pa. -/
def negDetailTail : List Char :=
  [')', ' ', 'i', 's', ' ', 'n', 'o', 't', ' ', 'p', 'r', 'e', 's', 'e', 'n',
   't', ' ', 'i', 'n', ' ', 't', 'a', 'b', 'l', 'e', ' ', 'p', 'a', '.']

/-- A DETAIL line of the shape produced by the database for a foreign-key
violation on a negative pa_hash: the parenthesised value starts with a minus
sign followed by the digit characters. -/
def negDetailLine (ds : List Char) : List Char :=
  negDetailPre ++ ds ++ negDetailTail

/-! ## Curation service: grounding curations (curation.py lines 88-133) -/

/-- A Curation row as used by get_grounding_curations: its free text (None or
a string) and the curator name (only used for logging). -/
structure Curation where
  text : Option String
  curator : String
deriving DecidableEq

/-- Python str.strip() default whitespace characters (ASCII). -/
def isPySpace (c : Char) : Bool :=
  c = ' ' || c = '\t' || c = '\n' || c = '\r' || c = '\x0b' || c = '\x0c'

/-- Python str.strip(): remove leading and trailing whitespace. -/
def pyStrip (l : List Char) : List Char :=
  ((l.dropWhile isPySpace).reverse.dropWhile isPySpace).reverse

/-- Characters of the literal "] -> " separating mention and ID list. -/
def arrowPat : List Char := "] -> ".data

/-- Split at the last occurrence of "] -> ": returns the part before it and
the part after it.  The regex ^\\[(.*)\\] -> ([^ ]+)$ has a greedy (.*) and a
space-free tail, which forces the split at the last occurrence. -/
def splitLastArrow : List Char → Option (List Char × List Char)
  | [] => none
  | c :: rest =>
    match splitLastArrow rest with
    | some (a, b) => some (c :: a, b)
    | none =>
      if arrowPat.isPrefixOf (c :: rest) then some ([], (c :: rest).drop arrowPat.length)
      else none

/-- The embedded regex match of curation.py line 112,
re.match("^\\[(.*)\\] -> ([^ ]+)$", cur_text): the string must start with a
bracket; the mention (.*) cannot cross a newline; the ID part ([^ ]+) must be
nonempty and contain no space.  The before-final-newline reading of the $
anchor never applies, because the input is stripped and a trailing newline
inside ([^ ]+) is itself accepted. -/
def groundingMatch : List Char → Option (List Char × List Char)
  | '[' :: rest =>
    match splitLastArrow rest with
    | some (a, b) =>
      if b.isEmpty then none
      else if '\n' ∈ a then none
      else if ' ' ∈ b then none
      else some (a, b)
    | none => none
  | _ => none

/-- Python str.split(sep) for a one-character separator, without maxsplit:
"a||b" splits to ["a", "", "b"] and "" splits to [""]. -/
def splitOnChar (sep : Char) : List Char → List (List Char)
  | [] => [[]]
  | c :: rest =>
    let r := splitOnChar sep rest
    if c = sep then [] :: r
    else
      match r with
      | [] => [[c]]
      | h :: t => (c :: h) :: t

/-- Python entry.split(maxsplit 1) on a colon: the part before the first colon
and the part after it; none when there is no colon, in which case the
unpacking "for k, v in dbid_entries" raises and the curation is skipped. -/
def splitFirstColon : List Char → Option (List Char × List Char)
  | [] => none
  | c :: rest =>
    if c = ':' then some ([], rest)
    else
      match splitFirstColon rest with
      | some (k, v) => some (c :: k, v)
      | none => none

/-- Association-list update with Python dict semantics: an existing key keeps
its position and gets the new value, a new key is appended. -/
def upsertA {α β : Type} [DecidableEq α] : List (α × β) → α → β → List (α × β)
  | [], k, v => [(k, v)]
  | (k1, v1) :: rest, k, v =>
    if k1 = k then (k, v) :: rest else (k1, v1) :: upsertA rest k v

/-- Association-list lookup (first match), Python dict access. -/
def lookupA {α β : Type} [DecidableEq α] (k : α) : List (α × β) → Option β
  | [] => none
  | (k1, v1) :: rest => if k1 = k then some v1 else lookupA k rest

/-- Python dict comprehension over (key, value) pairs: later pairs with the
same key overwrite earlier ones. -/
def dictOfPairs (l : List (List Char × List Char)) : List (List Char × List Char) :=
  l.foldl (fun d p => upsertA d p.1 p.2) []

/-- The ID-list parse of curation.py lines 120-123: split the right-hand side
on pipes, split every entry at its first colon (failure anywhere skips the
whole curation), and build the namespace-to-identifier dict. -/
def parseDbids (s : List Char) : Option (List (List Char × List Char)) :=
  (splitOnChar '|' s).mapM splitFirstColon

/-- The grounding dictionary under construction: mention text to
namespace-to-identifier pairs. -/
abbrev Groundings := List (List Char × List (List Char × List Char))

/-- What a single curation contributes in get_grounding_curations: none when
the text is absent or empty, the stripped text does not match the
bracket-arrow pattern, or the ID list is malformed; otherwise the mention
text and its parsed dict. -/
def ground_parse (cur : Curation) : Option (List Char × List (List Char × List Char)) :=
  match cur.text with
  | none => none
  | some t =>
    if t.data.isEmpty then none
    else
      match groundingMatch (pyStrip t.data) with
      | none => none
      | some (txt, dbidStr) =>
        match parseDbids dbidStr with
        | none => none
        | some entries => some (txt, dictOfPairs entries)

/-- One iteration of the loop in get_grounding_curations: skip or record the
curation's grounding, overwriting a previous entry for the same mention. -/
def ground_step (g : Groundings) (cur : Curation) : Groundings :=
  match ground_parse cur with
  | none => g
  | some (txt, d) => upsertA g txt d

/-- get_grounding_curations (curation.py lines 88-133) over the list of
curations tagged "grounding", in database iteration order. -/
def get_grounding_curations (curs : List Curation) : Groundings :=
  curs.foldl ground_step []

/-! ## Preassembly batch submitter (preassembly_submitter.py lines 29-44) -/

/-- The fields of a PreassemblySubmitter that _get_command reads: job_base and
s3_base from the Submitter base class, the validated task, and the external
constant bucket_name (imported from indra_reading.batch.util), taken here as a
field. -/
structure PreassemblySubmitter where
  job_base : String
  s3_base : String
  task : String
  bucket_name : String
deriving DecidableEq

/-- PreassemblySubmitter._get_command with its arguments unpacked: when the
task is not in job_type_set it yields no job (None, None); otherwise the job
name job_base_task_stmt_type, and the fixed command line with the s3 cache
path, with "-c" appended exactly when continuing. -/
def PreassemblySubmitter.get_command (ps : PreassemblySubmitter)
    (job_type_set : List String) (stmt_type : String) (batch_size : Nat)
    (continuing : Bool) : Option String × Option (List String) :=
  if ps.task ∈ job_type_set then
    let job_name := ps.job_base ++ "_" ++ ps.task ++ "_" ++ stmt_type
    let s3_cache := "s3://" ++ ps.bucket_name ++ "/" ++ ps.s3_base ++ "/" ++ job_name
    (some job_name,
     some (["python3", "-m", "indra_db.preassembly.preassemble_db", ps.task,
            "-n", "32", "-C", s3_cache, "-T", stmt_type, "-Y",
            "-b", toString batch_size] ++ (if continuing then ["-c"] else [])))
  else (none, none)

/-! ## TAS knowledgebase manager (knowledgebase_manager.py lines 37-59) -/

/-- A TAS candidate statement: its matching key, the class_min annotation of
its first evidence, and a tag distinguishing the concrete statement object. -/
structure TasStmt where
  mkey : Nat
  classMin : String
  tag : Nat
deriving DecidableEq

/-- The explicit preference order of TasManager.get_order_value. -/
def tasOrder : List String := ["Kd < 100nM", "100nM < Kd < 1uM"]

/-- TasManager.get_order_value: index of the first evidence's class_min in the
preference list; none models the ValueError for an unknown classification. -/
def get_order_value (s : TasStmt) : Option Nat :=
  tasOrder.indexOf? s.classMin

/-- TasManager.choose_better applied as in _get_statements, to the new
statement and the dict entry (None filtered out): min by order value, the
first of the pair winning ties. -/
def choose_better (s : TasStmt) (prev : Option TasStmt) : Option TasStmt :=
  match prev with
  | none => if (get_order_value s).isSome then some s else none
  | some t => do
    let i ← get_order_value s
    let j ← get_order_value t
    pure (if i ≤ j then s else t)

/-- The loop of TasManager._get_statements: fold the statements into a dict
keyed by matching key, keeping the better of the new statement and the
current entry. -/
def tasFold : List (Nat × TasStmt) → List TasStmt → Option (List (Nat × TasStmt))
  | d, [] => some d
  | d, s :: rest => do
    let best ← choose_better s (lookupA s.mkey d)
    tasFold (upsertA d s.mkey best) rest

/-- TasManager._get_statements: the deduplicating dict built from the processed
statements, whose values are the returned statements. -/
def tas_get_statements (stmts : List TasStmt) : Option (List (Nat × TasStmt)) :=
  tasFold [] stmts

/-! ## Dump listing (dump manager contract; implementation not in the excerpt) -/

/-- A dump directory on object storage: its date stamp and the stage markers
present under it. -/
structure DumpDir where
  dateStamp : String
  contents : List String
deriving DecidableEq

/-- Lexicographic strict order on character lists, for date-stamp sorting. -/
def lexLt : List Char → List Char → Bool
  | [], [] => false
  | [], _ :: _ => true
  | _ :: _, [] => false
  | a :: as, b :: bs => if a < b then true else if b < a then false else lexLt as bs

/-- Date-stamp comparison of dump directories (ascending sort order). -/
def dumpLe (a b : DumpDir) : Bool := ! lexLt b.dateStamp.data a.dateStamp.data

/-- Insertion into a date-sorted list of dump directories. -/
def insertDump (d : DumpDir) : List DumpDir → List DumpDir
  | [] => [d]
  | e :: rest => if dumpLe d e then d :: e :: rest else e :: insertDump d rest

/-- Insertion sort of dump directories by date stamp ascending. -/
def sortDumps (l : List DumpDir) : List DumpDir :=
  l.foldr insertDump []

/-- One optional marker filter: none means unfiltered, some b keeps exactly
the directories whose marker presence equals b. -/
def markerFilter (opt : Option Bool) (marker : String) (d : DumpDir) : Bool :=
  match opt with
  | none => true
  | some b => decide (marker ∈ d.contents) == b

/-- Modelled from the spec: the dump manager module itself is not in the
excerpt (only its integration test is), so list_dumps is taken from the
specification: it lists all date-stamped prefixes under the dump root,
optionally filtered by presence of a start marker and by presence or absence
of an end marker, returned as object-storage path handles ordered by date
stamp ascending. -/
def list_dumps (root : String) (s3 : List DumpDir)
    (started ended : Option Bool) : List String :=
  ((sortDumps s3).filter
      (fun d => markerFilter started ("start") d && markerFilter ended ("end") d)).map
    (fun d => root ++ d.dateStamp ++ "/")

/-! ## Statement distillation engine (distill_statements.py)

The nested statement dict built by get_reading_stmt_dict is keyed by
[text_ref_id][source][text_content_id][reader][reader_version][reading_id],
with a leaf mapping each statement-and-evidence hash to the set of
(statement id, statement-or-None) pairs sharing that hash.  The tree is
embedded as nested association lists; a leaf pair is (sid, payload), the
payload being present only when full statements were requested.  The external
NestedDict operations get_leaves (all leaf-set elements of a subtree) and
gets (all values stored under a given key) are embedded as traversals of the
typed tree. -/

/-- A (statement id, statement-or-None) leaf pair; the statement object is
coded by a Nat. -/
abbrev StmtTpl := Nat × Option Nat

/-- Leaf level: statement hash to the set of pairs sharing that hash. -/
abbrev HashDict := List (Nat × List StmtTpl)

/-- reading_id level. -/
abbrev RidDict := List (Nat × HashDict)

/-- reader_version level. -/
abbrev RvDict := List (String × RidDict)

/-- reader level. -/
abbrev RdrDict := List (String × RvDict)

/-- text_content_id level. -/
abbrev TcDict := List (Nat × RdrDict)

/-- source level. -/
abbrev SrcDict := List (String × TcDict)

/-- text_ref_id level: the whole statement dict. -/
abbrev StmtND := List (Nat × SrcDict)

/-- The statement ids of a list of leaf pairs, as in
{sid for sid, _ in tpls}. -/
def tplSids (l : List StmtTpl) : List Nat := l.map Prod.fst

/-- get_leaves of a hash dict: all pairs of all hash groups. -/
def hashLeaves (hd : HashDict) : List StmtTpl := (hd.map Prod.snd).flatten

/-- get_leaves of a reading_id subtree. -/
def ridLeaves (rd : RidDict) : List StmtTpl :=
  (rd.map (fun p => hashLeaves p.2)).flatten

/-- get_leaves of a reader_version subtree. -/
def rvLeaves (vd : RvDict) : List StmtTpl :=
  (vd.map (fun p => ridLeaves p.2)).flatten

/-- get_leaves of a reader subtree. -/
def rdrLeaves (rd : RdrDict) : List StmtTpl :=
  (rd.map (fun p => rvLeaves p.2)).flatten

/-- get_leaves of a text_content_id subtree. -/
def tcLeaves (td : TcDict) : List StmtTpl :=
  (td.map (fun p => rdrLeaves p.2)).flatten

/-- get_leaves of a source subtree. -/
def srcLeaves (sd : SrcDict) : List StmtTpl :=
  (sd.map (fun p => tcLeaves p.2)).flatten

/-- All leaf pairs of the whole statement dict. -/
def allTplsND (nd : StmtND) : List StmtTpl :=
  (nd.map (fun p => srcLeaves p.2)).flatten

/-- The ordered preference table of reader versions (distill_statements.py
lines 82-86); later entries in each list are better. -/
def reader_versions : List (String × List String) :=
  [("sparser", ["sept14-linux\n", "sept14-linux", "June2018-linux",
                "October2018-linux"]),
   ("reach", ["61059a-biores-e9ee36", "1.3.3-61059a-biores-"])]

/-- The ordered preference list of fulltext sources (distill_statements.py
line 89), least preferred first. -/
def text_content_sources : List String :=
  ["pubmed", "elsevier", "manuscripts", "pmc_oa"]

/-- better_func (line 98): position of a source in text_content_sources; none
models the ValueError raised by list.index for an unknown source. -/
def srcIdx (s : String) : Option Nat := text_content_sources.indexOf? s

/-- Position of a reader version in a reader's version list; none models the
ValueError raised by list.index for an unknown version. -/
def rvIdx (rvList : List String) (v : String) : Option Nat := rvList.indexOf? v

/-- min(src_dict, key=better_func): the first entry with the least source
index, together with the dict with that entry removed; none when the dict is
empty or some key is not a known source. -/
def pickWorst : SrcDict → Option ((String × TcDict) × SrcDict)
  | [] => none
  | [e] => if (srcIdx e.1).isSome then some (e, []) else none
  | e :: f :: rest => do
    let i ← srcIdx e.1
    let (m, r) ← pickWorst (f :: rest)
    let j ← srcIdx m.1
    if i ≤ j then pure (e, f :: rest) else pure (m, e :: r)

/-- The while-loop of get_filtered_rdg_stmts (lines 108-115), with fuel: while
more than one source remains, remove the least-preferred source and collect
the leaves of its subtree as bettered duplicates. -/
def srcLoopF : Nat → SrcDict → Option (SrcDict × List StmtTpl)
  | 0, sd => if sd.length > 1 then none else some (sd, [])
  | fuel + 1, sd =>
    if sd.length > 1 then
      match pickWorst sd with
      | none => none
      | some (w, rest) =>
        match srcLoopF fuel rest with
        | none => none
        | some (sdf, more) => some (sdf, tcLeaves w.2 ++ more)
    else some (sd, [])

/-- The source-filtering while-loop, with enough fuel to terminate. -/
def srcLoop (sd : SrcDict) : Option (SrcDict × List StmtTpl) :=
  srcLoopF sd.length sd

/-- max(rv_dict, key=lambda x: rv_list.index(x)) (line 120): the first entry
with the greatest version index; none when the dict is empty or some version
is unknown, where Python raises ValueError. -/
def pickBestRv (rvList : List String) : RvDict → Option (String × RidDict)
  | [] => none
  | [e] => if (rvIdx rvList e.1).isSome then some e else none
  | e :: f :: rest => do
    let i ← rvIdx rvList e.1
    let m ← pickBestRv rvList (f :: rest)
    let j ← rvIdx rvList m.1
    if j ≤ i then pure e else pure m

/-- src_dict.gets(reader): all reader_version dicts stored under the given
reader key anywhere in the remaining source dict, in traversal order. -/
def getsReader (sd : SrcDict) (reader : String) : List RvDict :=
  (sd.map (fun p =>
    ((p.2.map (fun q =>
      (q.2.filter (fun r => decide (r.1 = reader))).map Prod.snd)).flatten))).flatten

/-- The hash-group sets under the best reader version (line 131): one list of
pairs per statement hash, over all reading ids. -/
def bestGroups (rd : RidDict) : List (List StmtTpl) :=
  (rd.map (fun p => p.2.map Prod.snd)).flatten

/-- _detect_exact_duplicates on one hash group (lines 167-194): an empty group
contributes nothing; a singleton is kept; otherwise the candidates whose sid
is already linked are preferred: none linked keeps an arbitrary one (the set
pop, modelled as the head) and reports the rest as duplicates; exactly one
linked keeps it and reports the unlinked rest; more than one linked fails the
assertion (none). -/
def detectGroup (linked : List Nat) : List StmtTpl → Option (List StmtTpl × List StmtTpl)
  | [] => some ([], [])
  | [t] => some ([t], [])
  | t :: ts =>
    let g := t :: ts
    let prefed := g.filter (fun p => decide (p.1 ∈ linked))
    if prefed.isEmpty then some ([t], ts)
    else if prefed.length = 1 then
      some (prefed, g.filter (fun p => decide (p.1 ∉ linked)))
    else none

/-- _detect_exact_duplicates over the group iterator (lines 161-195): the kept
pairs and the exact-duplicate pairs, or the assertion failure. -/
def detectExact (linked : List Nat) : List (List StmtTpl) → Option (List StmtTpl × List StmtTpl)
  | [] => some ([], [])
  | g :: gs => do
    let (k, d) ← detectGroup linked g
    let (ks, ds) ← detectExact linked gs
    pure (k ++ ks, d ++ ds)

/-- The body of the reader loop (lines 119-143) for one rv_dict returned by
gets: find the best reader version, record the leaves of every other version
as bettered duplicates, and resolve exact duplicates among the hash groups of
the best version (or keep everything when ignore_duplicates is set). -/
def processRvDict (ignoreDup : Bool) (linked : List Nat) (rvList : List String)
    (rvd : RvDict) : Option (List StmtTpl × List StmtTpl × List StmtTpl) := do
  let best ← pickBestRv rvList rvd
  let bett := ((rvd.filter (fun p => decide (p.1 ≠ best.1))).map
    (fun p => ridLeaves p.2)).flatten
  let groups := bestGroups best.2
  if ignoreDup then
    pure (groups.flatten, [], bett)
  else do
    let (kept, dups) ← detectExact linked groups
    pure (kept, dups, bett)

/-- The reader loop over all rv_dicts of one reader. -/
def processRvDicts (ignoreDup : Bool) (linked : List Nat) (rvList : List String) :
    List RvDict → Option (List StmtTpl × List StmtTpl × List StmtTpl)
  | [] => some ([], [], [])
  | vd :: vds => do
    let (k, d, b) ← processRvDict ignoreDup linked rvList vd
    let (ks, ds, bs) ← processRvDicts ignoreDup linked rvList vds
    pure (k ++ ks, d ++ ds, b ++ bs)

/-- The loop over reader_versions.items() (line 118). -/
def processReaders (ignoreDup : Bool) (linked : List Nat) (sd1 : SrcDict) :
    List (String × List String) → Option (List StmtTpl × List StmtTpl × List StmtTpl)
  | [] => some ([], [], [])
  | (reader, rvList) :: rs => do
    let (k, d, b) ← processRvDicts ignoreDup linked rvList (getsReader sd1 reader)
    let (ks, ds, bs) ← processReaders ignoreDup linked sd1 rs
    pure (k ++ ks, d ++ ds, b ++ bs)

/-- Processing of one text ref's source dict (loop body, lines 105-147):
source filtering, then the reader-version filtering and exact-duplicate
resolution on the surviving source tier. -/
def processTr (ignoreDup : Bool) (linked : List Nat) (sd : SrcDict) :
    Option (List StmtTpl × List StmtTpl × List StmtTpl) := do
  let (sd1, bettSrc) ← srcLoop sd
  let (kept, dups, bettRv) ← processReaders ignoreDup linked sd1 reader_versions
  pure (kept, dups, bettSrc ++ bettRv)

/-- The three accumulated results of get_filtered_rdg_stmts: the kept leaf
pairs, the exact-duplicate statement ids and the bettered-duplicate statement
ids. -/
structure RdgRes where
  kept : List StmtTpl
  dupSids : List Nat
  betteredSids : List Nat
deriving DecidableEq

/-- The accumulation loop of get_filtered_rdg_stmts (lines 101-147) over all
text refs; none models an assertion failure inside exact-duplicate
resolution. -/
def get_filtered_rdg_stmts_core (ignoreDup : Bool) (linked : List Nat) :
    StmtND → Option RdgRes
  | [] => some ⟨[], [], []⟩
  | (_, sd) :: rest => do
    let (k, d, b) ← processTr ignoreDup linked sd
    let r ← get_filtered_rdg_stmts_core ignoreDup linked rest
    pure ⟨k ++ r.kept, tplSids d ++ r.dupSids, tplSids b ++ r.betteredSids⟩

/-- The final projection of get_filtered_rdg_stmts (lines 149-156): with full
statements, the set of non-None payloads, whose size must equal the number of
kept pairs (assertion at line 151); otherwise the set of statement ids. -/
def projectStmts (getFull : Bool) (tpls : List StmtTpl) : Option (List Nat) :=
  if getFull then
    let stmts := (tpls.filterMap Prod.snd).dedup
    if stmts.length = tpls.dedup.length then some stmts else none
  else some (tplSids tpls).dedup

/-- A row of the database-statement query (lines 236-240): content hash,
statement id, and the json payload (only fetched, and only used, when full
statements were requested). -/
structure DbTpl where
  mkHash : Nat
  sid : Nat
  payload : Nat
deriving DecidableEq

/-- Failure modes of the distillation pipeline: an assertion inside
reading-side exact-duplicate resolution, the full-statement projection
assertion, the linked-and-duplicate disjointness assertion of distill_stmts,
the assertion inside _choose_unique, and the ValueError of unpacking
zip(*res) on an empty result list. -/
inductive DistillErr where
  | rdgAssert
  | projAssert
  | disjointAssert
  | dbAssert
  | dbUnzip
deriving DecidableEq

/-- Lift an optional value into Except with the given error. -/
def optErr {α : Type} (e : DistillErr) : Option α → Except DistillErr α
  | none => .error e
  | some a => .ok a

/-- _choose_unique (lines 198-224) on one group of rows sharing a content
hash: an empty group fails the assertion at line 200; a singleton is taken
as is; otherwise rows whose id is in not_duplicates are preferred: none
preferred takes an arbitrary row (the set pop, modelled as the head) and the
duplicate ids are the remaining ids not in not_duplicates; exactly one
preferred takes it, the duplicate ids being all ids of the group not in
not_duplicates; more than one preferred fails the assertion at line 213.
The kept value is the parsed payload with full statements, the id without. -/
def choose_unique (getFull : Bool) (notDup : List Nat) :
    List DbTpl → Option (Nat × List Nat)
  | [] => none
  | [t] => some (if getFull then t.payload else t.sid, [])
  | t :: ts =>
    let g := t :: ts
    let preferred := g.filter (fun p => decide (p.sid ∈ notDup))
    match preferred with
    | [] =>
      some (if getFull then t.payload else t.sid,
        (ts.filter (fun p => decide (p.sid ∉ notDup))).map (fun p => p.sid))
    | [s] =>
      some (if getFull then s.payload else s.sid,
        (g.filter (fun p => decide (p.sid ∉ notDup))).map (fun p => p.sid))
    | _ => none

/-- The single-process branch of get_filtered_db_stmts (lines 255-261): fold
over the hash groups, accumulating kept statements and duplicate ids; a
failing group raises out of the loop. -/
def db_stmts_single (getFull : Bool) (notDup : List Nat) :
    List (List DbTpl) → Except DistillErr (List Nat × List Nat)
  | [] => .ok ([], [])
  | grp :: grps =>
    match choose_unique getFull notDup grp with
    | none => .error .dbAssert
    | some (s, d) => do
      let (ss, ds) ← db_stmts_single getFull notDup grps
      pure (s :: ss, d ++ ds)

/-- pool.map of _choose_unique over the hash groups: every group is resolved
independently, results are returned in input order, and a worker exception
propagates. -/
def poolMap (getFull : Bool) (notDup : List Nat) :
    List (List DbTpl) → Except DistillErr (List (Nat × List Nat))
  | [] => .ok []
  | g :: gs => do
    let r ← optErr .dbAssert (choose_unique getFull notDup g)
    let rs ← poolMap getFull notDup gs
    pure (r :: rs)

/-- The process-pool branch of get_filtered_db_stmts (lines 262-270):
pool.map resolves every group; zip(*res) then fails with ValueError when the
result list is empty, and otherwise unzips into the kept statements and the
duplicate-id sets, which are unioned. -/
def db_stmts_pool (getFull : Bool) (notDup : List Nat)
    (grps : List (List DbTpl)) : Except DistillErr (List Nat × List Nat) := do
  let res ← poolMap getFull notDup grps
  match res with
  | [] => .error .dbUnzip
  | _ => pure (res.map Prod.fst, (res.map Prod.snd).flatten)

/-- get_filtered_db_stmts (lines 227-272) over the hash groups of the
database-sourced raw statements: the single-process path when num_procs is 1,
the pool path otherwise. -/
def get_filtered_db_stmts (getFull : Bool) (notDup : List Nat) (numProcs : Nat)
    (grps : List (List DbTpl)) : Except DistillErr (List Nat × List Nat) :=
  if numProcs = 1 then db_stmts_single getFull notDup grps
  else db_stmts_pool getFull notDup grps

/-- The handle_duplicates argument of distill_stmts. -/
inductive HandleDup where
  | ignoreDups
  | delete
  | path (fp : String)
deriving DecidableEq

/-- The pure core of distill_stmts (lines 312-341): linked_sids is loaded only
when duplicates are handled; the reading-derived stage runs with
ignore_duplicates at its default (False) and its duplicate ids must be
disjoint from linked_sids (assertion at line 330); then the database-derived
stage runs with the same linked ids, the duplicate ids are unioned and the
disjointness assertion is checked again (line 340).  The deletion and
evidence-weeding side effects that follow do not alter the returned
statement set. -/
def distill_core (handleDup : HandleDup) (getFull : Bool) (numProcs : Nat)
    (linkedFromDb : List Nat) (nd : StmtND) (dbGroups : List (List DbTpl)) :
    Except DistillErr (List Nat) := do
  let linked := if handleDup = HandleDup.ignoreDups then [] else linkedFromDb
  let r ← optErr .rdgAssert (get_filtered_rdg_stmts_core false linked nd)
  let stmts ← optErr .projAssert (projectStmts getFull r.kept)
  if (linked.inter r.dupSids).isEmpty then do
    let (dbStmts, dbDups) ← get_filtered_db_stmts getFull linked numProcs dbGroups
    let allDups := r.dupSids ++ dbDups
    if (linked.inter allDups).isEmpty then pure (stmts ++ dbStmts)
    else throw .disjointAssert
  else throw .disjointAssert

/-- Source tier e ranks strictly below source tier f in the
text_content_sources preference order. -/
def srcWorse (e f : String × TcDict) : Prop :=
  ∃ i j, srcIdx e.1 = some i ∧ srcIdx f.1 = some j ∧ i < j

/-- Reader version u ranks strictly below reader version v in the reader's
version preference list. -/
def rvWorse (rvList : List String) (u v : String × RidDict) : Prop :=
  ∃ i j, rvIdx rvList u.1 = some i ∧ rvIdx rvList v.1 = some j ∧ i < j

/-- Leaves of the subtrees that gets collects for one reader within one
reader dict. -/
def rdrGetsLeaves (reader : String) (rd : RdrDict) : List StmtTpl :=
  ((rd.filter (fun r => decide (r.1 = reader))).map (fun r => rvLeaves r.2)).flatten

/-- Leaves of the subtrees that gets collects for one reader within one
text_content dict. -/
def tcGetsLeaves (reader : String) (td : TcDict) : List StmtTpl :=
  (td.map (fun q => rdrGetsLeaves reader q.2)).flatten

/-- Leaves of all subtrees that src_dict.gets(reader) returns. -/
def srcGetsLeaves (reader : String) (sd : SrcDict) : List StmtTpl :=
  (sd.map (fun p => tcGetsLeaves reader p.2)).flatten

/-- Decidable equality of Except values, for evaluating pipeline outcomes. -/
instance {ε α : Type} [DecidableEq ε] [DecidableEq α] : DecidableEq (Except ε α) := fun a b =>
  match a, b with
  | .error e1, .error e2 =>
    if h : e1 = e2 then isTrue (by rw [h]) else isFalse (by simp [h])
  | .ok a1, .ok a2 =>
    if h : a1 = a2 then isTrue (by rw [h]) else isFalse (by simp [h])
  | .error _, .ok _ => isFalse (by simp)
  | .ok _, .error _ => isFalse (by simp)

/-- The three-directory scenario of the list_dumps contract: a dump with only
a start marker, a dump with start and end markers, and a dump with only an
unrelated stage marker, deliberately given out of date order. -/
def dumpScenario : List DumpDir :=
  [⟨"2020-02-01", ["start", "end"]⟩,
   ⟨"2020-01-01", ["start"]⟩,
   ⟨"2020-03-01", ["sif"]⟩]

/-- TAS candidate v ranks at least as strongly as candidate t: both order
values are defined and v's index in the preference list is no larger. -/
def ovLe (v t : TasStmt) : Prop :=
  ∃ i j, get_order_value v = some i ∧ get_order_value t = some j ∧ i ≤ j

/-- Example fixture: a pubmed subtree with two statements sharing a hash
under the known reach version. -/
def tcExampleA : TcDict :=
  [(10, [("reach", [("61059a-biores-e9ee36",
    [(100, [(1000, [(11, (none : Option Nat)), (12, none)])])])])])]

/-- Example fixture: a pmc_oa subtree with two reach versions, one statement
each. -/
def tcExampleB : TcDict :=
  [(20, [("reach", [("1.3.3-61059a-biores-", [(200, [(1000, [(21, (none : Option Nat))])])]),
                    ("61059a-biores-e9ee36", [(201, [(1000, [(22, none)])])])])])]

/-- Example fixture: one text ref with a pubmed tier and a pmc_oa tier. -/
def ndExample : StmtND := [(1, [("pubmed", tcExampleA), ("pmc_oa", tcExampleB)])]

/-- The result of the reading-derived filtering on the example tree. -/
def outExample : RdgRes := ⟨[(21, none)], [], [11, 12, 22]⟩

/-! ## Theorems -/

/-- Looking up the key just written by an association update returns the new
value. -/
theorem lookupA_upsertA_self {α β : Type} [DecidableEq α] :
    ∀ (d : List (α × β)) (k : α) (v : β), lookupA k (upsertA d k v) = some v
  | [], k, v => by simp [upsertA, lookupA]
  | (k1, v1) :: rest, k, v => by
    by_cases h : k1 = k
    · simp [upsertA, h, lookupA]
    · simp only [upsertA, h, if_false]
      rw [lookupA, if_neg h]
      exact lookupA_upsertA_self rest k v

/-- Looking up a different key is unaffected by an association update. -/
theorem lookupA_upsertA_ne {α β : Type} [DecidableEq α] :
    ∀ (d : List (α × β)) (k k2 : α) (v : β), k2 ≠ k →
      lookupA k2 (upsertA d k v) = lookupA k2 d
  | [], k, k2, v, h => by
    have hne : ¬ k = k2 := fun hh => h hh.symm
    simp only [upsertA, lookupA, if_neg hne]
  | (k1, v1) :: rest, k, k2, v, h => by
    by_cases h1 : k1 = k
    · subst h1
      have hne : ¬ k1 = k2 := fun hh => h hh.symm
      simp only [upsertA, if_pos rfl, lookupA, if_neg hne]
    · simp only [upsertA, h1, if_false]
      by_cases h2 : k1 = k2
      · simp only [lookupA, if_pos h2]
      · simp only [lookupA, if_neg h2]
        exact lookupA_upsertA_ne rest k k2 v h

/-- A member of a list has a position found by indexOf?. -/
theorem indexOf?_isSome_of_mem {l : List String} {a : String} (h : a ∈ l) :
    (l.indexOf? a).isSome := by
  rw [Option.isSome_iff_ne_none]
  intro hn
  rw [List.indexOf?_eq_none_iff] at hn
  simp at hn
  exact hn a h rfl

/-- C7: for a PreassemblySubmitter whose task is in job_type_set,
_get_command returns the job name job_base_task_stmt_type and exactly the
command python3 -m indra_db.preassembly.preassemble_db task -n 32 -C
s3://bucket/s3_base/job_name -T stmt_type -Y -b batch_size, with -c appended
exactly when continuing; when the task is not in job_type_set, no job is
produced. -/
theorem get_command_spec (ps : PreassemblySubmitter) (jts : List String)
    (st : String) (bs : Nat) (cont : Bool) :
    (ps.task ∈ jts →
      ps.get_command jts st bs cont =
        (some (ps.job_base ++ "_" ++ ps.task ++ "_" ++ st),
         some (["python3", "-m", "indra_db.preassembly.preassemble_db", ps.task,
                "-n", "32", "-C",
                "s3://" ++ ps.bucket_name ++ "/" ++ ps.s3_base ++ "/" ++
                  (ps.job_base ++ "_" ++ ps.task ++ "_" ++ st),
                "-T", st, "-Y", "-b", toString bs] ++
               (if cont then ["-c"] else [])))) ∧
    (ps.task ∉ jts → ps.get_command jts st bs cont = (none, none)) := by
  constructor <;> intro h <;> simp [PreassemblySubmitter.get_command, h]

/-- Witness for C7 at a concrete submitter, statement type and batch size,
with continuing set. -/
theorem get_command_spec_witness :
    (("create" : String) ∈ ["create", "update"]) ∧
    PreassemblySubmitter.get_command ⟨"jb", "s3b", "create", "bkt"⟩
        ["create", "update"] "Activation" 5000 true =
      (some ("jb" ++ "_" ++ "create" ++ "_" ++ "Activation"),
       some (["python3", "-m", "indra_db.preassembly.preassemble_db", "create",
              "-n", "32", "-C",
              "s3://" ++ "bkt" ++ "/" ++ "s3b" ++ "/" ++
                ("jb" ++ "_" ++ "create" ++ "_" ++ "Activation"),
              "-T", "Activation", "-Y", "-b", toString (5000 : Nat)] ++
             (if true then ["-c"] else []))) :=
  ⟨by decide,
   (get_command_spec ⟨"jb", "s3b", "create", "bkt"⟩ ["create", "update"]
      "Activation" 5000 true).1 (by decide)⟩

/-- C9: over the three-directory scenario, list_dumps returns all three
date-stamped path handles in ascending date order when unfiltered, exactly
the two started dumps with started filtering, and exactly the finished dump
with started and ended filtering. -/
theorem list_dumps_scenario (root : String) :
    list_dumps root dumpScenario none none =
      [root ++ "2020-01-01" ++ "/", root ++ "2020-02-01" ++ "/",
       root ++ "2020-03-01" ++ "/"] ∧
    list_dumps root dumpScenario (some true) none =
      [root ++ "2020-01-01" ++ "/", root ++ "2020-02-01" ++ "/"] ∧
    list_dumps root dumpScenario (some true) (some true) =
      [root ++ "2020-02-01" ++ "/"] := by
  exact ⟨rfl, rfl, rfl⟩

/-- C5 counterexample: on the empty corpus the single-process path of
get_filtered_db_stmts returns empty kept and duplicate sets while the
four-process path fails with the ValueError of unpacking zip of an empty
result list, so the two paths are not equivalent on every input corpus. -/
theorem db_procs_empty_counterexample :
    get_filtered_db_stmts false [] 1 [] = .ok ([], []) ∧
    get_filtered_db_stmts false [] 4 [] = .error .dbUnzip ∧
    get_filtered_db_stmts false [] 1 [] ≠ get_filtered_db_stmts false [] 4 [] :=
  ⟨rfl, rfl, by decide⟩

/-- Mapping the zip-and-union step over the pool results agrees with the
single-process fold, for every group list. -/
theorem db_single_eq_poolMap (getFull : Bool) (notDup : List Nat) :
    ∀ grps : List (List DbTpl),
      db_stmts_single getFull notDup grps =
        (poolMap getFull notDup grps).map
          (fun res => (res.map Prod.fst, (res.map Prod.snd).flatten))
  | [] => rfl
  | g :: t => by
    simp only [db_stmts_single, poolMap]
    cases h : choose_unique getFull notDup g with
    | none => simp [optErr, Except.map, bind, Except.bind]
    | some r =>
      have ih := db_single_eq_poolMap getFull notDup t
      cases hm : poolMap getFull notDup t with
      | error e =>
        simp [optErr, hm, Except.map, bind, Except.bind, ih]
      | ok res =>
        simp [optErr, hm, Except.map, bind, Except.bind, ih, pure, Except.pure,
          List.flatten]

/-- C5 amended: for every nonempty input corpus of database-sourced hash
groups, get_filtered_db_stmts with any process count yields exactly the
single-process result, kept statements and duplicate ids alike. -/
theorem db_procs_equiv_nonempty (getFull : Bool) (notDup : List Nat)
    (numProcs : Nat) (grps : List (List DbTpl)) (hne : grps ≠ []) :
    get_filtered_db_stmts getFull notDup numProcs grps =
      get_filtered_db_stmts getFull notDup 1 grps := by
  unfold get_filtered_db_stmts
  by_cases hnp : numProcs = 1
  · simp [hnp]
  · simp only [hnp, if_false, if_pos rfl]
    unfold db_stmts_pool
    rw [db_single_eq_poolMap]
    cases hm : poolMap getFull notDup grps with
    | error e => simp [Except.map, bind, Except.bind]
    | ok res =>
      have hres : res ≠ [] := by
        intro hr
        subst hr
        cases grps with
        | nil => exact hne rfl
        | cons g t =>
          rw [poolMap] at hm
          cases hg : optErr (α := Nat × List Nat) .dbAssert
              (choose_unique getFull notDup g) with
          | error e => simp [hg, bind, Except.bind] at hm
          | ok r =>
            simp only [hg, bind, Except.bind] at hm
            cases hm2 : poolMap getFull notDup t with
            | error e => simp [hm2] at hm
            | ok res2 => simp [hm2, pure, Except.pure] at hm
      simp only [bind, Except.bind, Except.map]
      cases res with
      | nil => exact absurd rfl hres
      | cons r rs => rfl

/-- Witness for C5 amended at a concrete nonempty corpus with four
processes. -/
theorem db_procs_equiv_nonempty_witness :
    ([[DbTpl.mk 7 1 0, DbTpl.mk 7 2 0], [DbTpl.mk 8 3 0]] ≠ ([] : List (List DbTpl))) ∧
    get_filtered_db_stmts false [] 4 [[DbTpl.mk 7 1 0, DbTpl.mk 7 2 0], [DbTpl.mk 8 3 0]] =
      get_filtered_db_stmts false [] 1 [[DbTpl.mk 7 1 0, DbTpl.mk 7 2 0], [DbTpl.mk 8 3 0]] :=
  ⟨by decide,
   db_procs_equiv_nonempty false [] 4
     [[DbTpl.mk 7 1 0, DbTpl.mk 7 2 0], [DbTpl.mk 8 3 0]] (by decide)⟩

/-- C1: when the integrity-error detail line matches the pa_hash pattern, the
captured hash is compared as an integer with the requested hash_val: equality
raises BadHashError carrying that hash, inequality fails the assertion; when
the detail line does not match the pattern, the original integrity error is
re-raised unchanged and no BadHashError is raised. -/
theorem submit_curation_error_classification (hv : Int) (line : List Char) :
    (∀ ds, reMatchDetail line = some ds →
      (((digitsVal ds : Int) = hv →
          submit_curation_on_error hv line = .badHashError hv) ∧
       ((digitsVal ds : Int) ≠ hv →
          submit_curation_on_error hv line = .assertFailed))) ∧
    (reMatchDetail line = none →
      submit_curation_on_error hv line = .reraised) := by
  refine ⟨fun ds hds => ⟨fun he => ?_, fun hne => ?_⟩, fun hn => ?_⟩
  · simp [submit_curation_on_error, hds, he]
  · simp [submit_curation_on_error, hds, hne]
  · simp [submit_curation_on_error, hn]

/-- Witness for C1 at a realistic detail line whose captured hash equals the
requested hash. -/
theorem submit_curation_error_classification_witness :
    reMatchDetail (("DETAIL:  Key (pa_hash)=(12345) is not present in table \"pa_statements\".").data) =
      some (("12345").data) ∧
    ((digitsVal (("12345").data) : Int) = 12345) ∧
    submit_curation_on_error 12345
        (("DETAIL:  Key (pa_hash)=(12345) is not present in table \"pa_statements\".").data) =
      .badHashError 12345 :=
  ⟨by decide, by decide,
   ((submit_curation_error_classification 12345
       (("DETAIL:  Key (pa_hash)=(12345) is not present in table \"pa_statements\".").data)).1
     (("12345").data) (by decide)).1 (by decide)⟩

/-- C3: for a nonempty exact-duplicate group and a set of already-linked ids,
both _detect_exact_duplicates (on a reading-side hash group) and
_choose_unique (on a database-side hash group) keep the single linked
candidate and report the others as exact duplicates when exactly one
candidate is linked; keep one arbitrary member (the set pop) and report the
rest when none is linked; and fail the fatal assertion when more than one
candidate is linked. -/
theorem duplicate_group_resolution (linked notDup : List Nat) (getFull : Bool)
    (t : StmtTpl) (ts : List StmtTpl) (u : DbTpl) (us : List DbTpl) :
    (((t :: ts).filter (fun p => decide (p.1 ∈ linked))).length = 0 →
        detectGroup linked (t :: ts) = some ([t], ts)) ∧
    (((t :: ts).filter (fun p => decide (p.1 ∈ linked))).length = 1 →
        detectGroup linked (t :: ts) =
          some ((t :: ts).filter (fun p => decide (p.1 ∈ linked)),
                (t :: ts).filter (fun p => decide (p.1 ∉ linked)))) ∧
    (2 ≤ ((t :: ts).filter (fun p => decide (p.1 ∈ linked))).length →
        detectGroup linked (t :: ts) = none) ∧
    (((u :: us).filter (fun p => decide (p.sid ∈ notDup))).length = 0 →
        choose_unique getFull notDup (u :: us) =
          some (if getFull then u.payload else u.sid,
                (us.filter (fun p => decide (p.sid ∉ notDup))).map (fun p => p.sid))) ∧
    (∀ s, (u :: us).filter (fun p => decide (p.sid ∈ notDup)) = [s] →
        choose_unique getFull notDup (u :: us) =
          some (if getFull then s.payload else s.sid,
                ((u :: us).filter (fun p => decide (p.sid ∉ notDup))).map
                  (fun p => p.sid))) ∧
    (2 ≤ ((u :: us).filter (fun p => decide (p.sid ∈ notDup))).length →
        choose_unique getFull notDup (u :: us) = none) := by
  refine ⟨fun h0 => ?_, fun h1 => ?_, fun h2 => ?_, fun g0 => ?_,
    fun s hs => ?_, fun g2 => ?_⟩
  · cases ts with
    | nil =>
      simp [detectGroup]
    | cons a ts2 =>
      rw [List.length_eq_zero] at h0
      simp [detectGroup, h0]
  · cases ts with
    | nil =>
      have ht : decide (t.1 ∈ linked) = true := by
        by_contra hc
        simp [List.filter, hc] at h1
      simp [detectGroup, List.filter, ht]
    | cons a ts2 =>
      have hne : ¬ ((t :: a :: ts2).filter (fun p => decide (p.1 ∈ linked))).isEmpty := by
        rw [List.isEmpty_iff, ← List.length_eq_zero]
        omega
      simp only [detectGroup, hne, if_false, h1, if_pos rfl]
      simp
  · cases ts with
    | nil =>
      have : ((t :: ([] : List StmtTpl)).filter (fun p => decide (p.1 ∈ linked))).length ≤ 1 := by
        have := List.length_filter_le (fun p => decide (p.1 ∈ linked)) (t :: ([] : List StmtTpl))
        simpa using this
      omega
    | cons a ts2 =>
      have hne : ¬ ((t :: a :: ts2).filter (fun p => decide (p.1 ∈ linked))).isEmpty := by
        rw [List.isEmpty_iff, ← List.length_eq_zero]
        omega
      have hone : ((t :: a :: ts2).filter (fun p => decide (p.1 ∈ linked))).length ≠ 1 := by
        omega
      simp only [detectGroup, hne, if_false, hone]
      simp
  · cases us with
    | nil =>
      rw [List.length_eq_zero] at g0
      simp only [List.filter_nil, List.map_nil]
      have hu : decide (u.sid ∈ notDup) = false := by
        by_contra hc
        simp only [Bool.not_eq_false] at hc
        simp [List.filter, hc] at g0
      simp [choose_unique]
    | cons a us2 =>
      rw [List.length_eq_zero] at g0
      simp [choose_unique, g0]
  · cases us with
    | nil =>
      have hsu : s = u := by
        have hu : decide (u.sid ∈ notDup) = true := by
          by_contra hc
          simp only [Bool.not_eq_true] at hc
          simp [List.filter, hc] at hs
        simp [List.filter, hu] at hs
        exact hs.symm
      subst hsu
      have hu : decide (s.sid ∈ notDup) = true := by
        by_contra hc
        simp only [Bool.not_eq_true] at hc
        simp [List.filter, hc] at hs
      simp only [choose_unique]
      simp at hu
      simp [List.filter, hu]
    | cons a us2 =>
      simp only [choose_unique, hs]
  · cases us with
    | nil =>
      have : ((u :: ([] : List DbTpl)).filter (fun p => decide (p.sid ∈ notDup))).length ≤ 1 := by
        have := List.length_filter_le (fun p => decide (p.sid ∈ notDup)) (u :: ([] : List DbTpl))
        simpa using this
      omega
    | cons a us2 =>
      rcases hf : (u :: a :: us2).filter (fun p => decide (p.sid ∈ notDup)) with
        _ | ⟨x, _ | ⟨y, rest⟩⟩
      · rw [hf] at g2
        simp at g2
      · rw [hf] at g2
        simp at g2
      · simp only [choose_unique, hf]

/-- Witness for C3: a two-element reading-side group with exactly one linked
candidate, and a two-row database-side group with exactly one preferred
row. -/
theorem duplicate_group_resolution_witness :
    detectGroup [12] [((11 : Nat), (none : Option Nat)), (12, none)] =
      some ([(12, none)], [(11, none)]) ∧
    choose_unique false [2] [DbTpl.mk 7 1 0, DbTpl.mk 7 2 0] = some (2, [1]) := by
  constructor
  · rw [(duplicate_group_resolution [12] [] false (11, none) [(12, none)]
      (DbTpl.mk 0 0 0) []).2.1 (by decide)]
    decide
  · rw [(duplicate_group_resolution [] [2] false ((0 : Nat), (none : Option Nat)) []
      (DbTpl.mk 7 1 0) [DbTpl.mk 7 2 0]).2.2.2.2.1 (DbTpl.mk 7 2 0) (by decide)]
    decide

/-- The dict built by the TasManager._get_statements loop keeps, for every
matching key, a statement of that key with the least order value among those
processed so far. -/
theorem tasFold_inv :
    ∀ (stmts processed : List TasStmt) (d : List (Nat × TasStmt)),
      (∀ s ∈ stmts, s.classMin ∈ tasOrder) →
      (∀ s ∈ processed, s.classMin ∈ tasOrder) →
      (∀ k v, lookupA k d = some v → v ∈ processed ∧ v.mkey = k ∧
          ∀ t ∈ processed, t.mkey = k → ovLe v t) →
      (∀ k, lookupA k d = none → ∀ t ∈ processed, t.mkey ≠ k) →
      ∃ d2, tasFold d stmts = some d2 ∧
        ∀ k v, lookupA k d2 = some v → v ∈ processed ++ stmts ∧ v.mkey = k ∧
          ∀ t ∈ processed ++ stmts, t.mkey = k → ovLe v t
  | [], processed, d, _, _, h1, _ => ⟨d, rfl, by simpa using h1⟩
  | s :: rest, processed, d, hall, hproc, h1, h2 => by
    have hovs : ∃ i, get_order_value s = some i := by
      have := indexOf?_isSome_of_mem (hall s (by simp))
      exact Option.isSome_iff_exists.mp this
    obtain ⟨i, hi⟩ := hovs
    have hstep : ∃ best, choose_better s (lookupA s.mkey d) = some best ∧
        (best = s ∨ ∃ t, lookupA s.mkey d = some t ∧ best = t) ∧
        ovLe best s ∧
        (∀ t, lookupA s.mkey d = some t → ovLe best t) := by
      cases hlk : lookupA s.mkey d with
      | none =>
        refine ⟨s, ?_, Or.inl rfl, ⟨i, i, hi, hi, le_rfl⟩, fun t ht => by simp at ht⟩
        simp [choose_better, hi]
      | some t =>
        have htmem := (h1 s.mkey t hlk).1
        have hovt : ∃ j, get_order_value t = some j := by
          have := indexOf?_isSome_of_mem (hproc t htmem)
          exact Option.isSome_iff_exists.mp this
        obtain ⟨j, hj⟩ := hovt
        by_cases hij : i ≤ j
        · refine ⟨s, ?_, Or.inl rfl, ⟨i, i, hi, hi, le_rfl⟩, ?_⟩
          · simp [choose_better, hi, hj, hij]
          · intro t2 ht2
            injection ht2 with hh
            subst hh
            exact ⟨i, j, hi, hj, hij⟩
        · refine ⟨t, ?_, Or.inr ⟨t, rfl, rfl⟩, ⟨j, i, hj, hi, le_of_not_le hij⟩, ?_⟩
          · simp [choose_better, hi, hj, hij]
          · intro t2 ht2
            injection ht2 with hh
            subst hh
            exact ⟨j, j, hj, hj, le_rfl⟩
    obtain ⟨best, hcb, hbid, hbs, hbmin⟩ := hstep
    have hbmem : best ∈ processed ++ [s] := by
      rcases hbid with hb | ⟨t, hlk, hb⟩
      · rw [hb]
        simp
      · rw [hb]
        exact List.mem_append_left _ (h1 s.mkey t hlk).1
    have hbkey : best.mkey = s.mkey := by
      rcases hbid with hb | ⟨t, hlk, hb⟩
      · rw [hb]
      · rw [hb]
        exact (h1 s.mkey t hlk).2.1
    have hbcls : best.classMin ∈ tasOrder := by
      rcases hbid with hb | ⟨t, hlk, hb⟩
      · rw [hb]
        exact hall s (by simp)
      · rw [hb]
        exact hproc t (h1 s.mkey t hlk).1
    have hmin' : ∀ t ∈ processed ++ [s], t.mkey = s.mkey → ovLe best t := by
      intro t ht hk
      rcases List.mem_append.mp ht with htp | hts
      · cases hlk : lookupA s.mkey d with
        | none => exact absurd hk (h2 s.mkey hlk t htp)
        | some t0 =>
          obtain ⟨a, b, ha, hb, hab⟩ := hbmin t0 hlk
          obtain ⟨b2, c, hb2, hc, hbc⟩ := (h1 s.mkey t0 hlk).2.2 t htp hk
          rw [hb2] at hb
          cases hb
          exact ⟨a, c, ha, hc, le_trans hab hbc⟩
      · have : t = s := by simpa using hts
        subst this
        exact hbs
    have ih := tasFold_inv rest (processed ++ [s]) (upsertA d s.mkey best)
      (fun x hx => hall x (by simp [hx]))
      (fun x hx => by
        rcases List.mem_append.mp hx with hxp | hxs
        · exact hproc x hxp
        · have hxs2 : x = s := by simpa using hxs
          rw [hxs2]
          exact hall s (by simp))
      (fun k v hv => by
        by_cases hk : k = s.mkey
        · subst hk
          rw [lookupA_upsertA_self] at hv
          cases hv
          exact ⟨hbmem, hbkey, hmin'⟩
        · rw [lookupA_upsertA_ne d s.mkey k best hk] at hv
          obtain ⟨hm, hkey, hmn⟩ := h1 k v hv
          refine ⟨List.mem_append_left _ hm, hkey, ?_⟩
          intro t ht htk
          rcases List.mem_append.mp ht with htp | hts
          · exact hmn t htp htk
          · have hts2 : t = s := by simpa using hts
            subst hts2
            exact absurd htk (fun hh => hk hh.symm))
      (fun k hk t ht => by
        by_cases hks : k = s.mkey
        · subst hks
          rw [lookupA_upsertA_self] at hk
          cases hk
        · rw [lookupA_upsertA_ne d s.mkey k best hks] at hk
          rcases List.mem_append.mp ht with htp | hts
          · exact h2 k hk t htp
          · have hts2 : t = s := by simpa using hts
            subst hts2
            exact fun hc => hks hc.symm)
    obtain ⟨d2, hd2, hconc⟩ := ih
    refine ⟨d2, ?_, ?_⟩
    · rw [tasFold, hcb]
      exact hd2
    · intro k v hv
      obtain ⟨hm, hkey, hmn⟩ := hconc k v hv
      rw [List.append_assoc] at hm hmn
      simp only [List.singleton_append] at hm hmn
      exact ⟨hm, hkey, hmn⟩

/-- C8: for every corpus of TAS candidates whose class_min values come from
the preference list, every statement kept by the deduplicating dict of
_get_statements has, among all candidates sharing its matching key, the
earliest-ranked class_min; in particular, of two candidates with class_min
values Kd < 100nM and 100nM < Kd < 1uM for the same key, the first is kept,
whichever is processed first. -/
theorem tas_prefers_stronger_class (stmts : List TasStmt)
    (h : ∀ s ∈ stmts, s.classMin ∈ tasOrder) :
    (∃ d, tas_get_statements stmts = some d ∧
      ∀ k v, lookupA k d = some v →
        v ∈ stmts ∧ v.mkey = k ∧ ∀ t ∈ stmts, t.mkey = k → ovLe v t) ∧
    tas_get_statements [TasStmt.mk 0 ("Kd < 100nM") 1,
        TasStmt.mk 0 ("100nM < Kd < 1uM") 2] =
      some [(0, TasStmt.mk 0 ("Kd < 100nM") 1)] ∧
    tas_get_statements [TasStmt.mk 0 ("100nM < Kd < 1uM") 2,
        TasStmt.mk 0 ("Kd < 100nM") 1] =
      some [(0, TasStmt.mk 0 ("Kd < 100nM") 1)] := by
  refine ⟨?_, by decide, by decide⟩
  obtain ⟨d2, hd2, hc⟩ := tasFold_inv stmts [] [] h (by simp)
    (fun k v hv => by simp [lookupA] at hv) (fun k _ t ht => by simp at ht)
  exact ⟨d2, hd2, fun k v hv => by simpa using hc k v hv⟩

/-- Witness for C8 on the concrete two-candidate corpus. -/
theorem tas_prefers_stronger_class_witness :
    (∀ s ∈ [TasStmt.mk 5 ("Kd < 100nM") 1, TasStmt.mk 5 ("100nM < Kd < 1uM") 2],
        s.classMin ∈ tasOrder) ∧
    (∃ d, tas_get_statements
        [TasStmt.mk 5 ("Kd < 100nM") 1, TasStmt.mk 5 ("100nM < Kd < 1uM") 2] = some d ∧
      ∀ k v, lookupA k d = some v →
        v ∈ [TasStmt.mk 5 ("Kd < 100nM") 1, TasStmt.mk 5 ("100nM < Kd < 1uM") 2] ∧
        v.mkey = k ∧
        ∀ t ∈ [TasStmt.mk 5 ("Kd < 100nM") 1, TasStmt.mk 5 ("100nM < Kd < 1uM") 2],
          t.mkey = k → ovLe v t) :=
  ⟨by decide,
   (tas_prefers_stronger_class
     [TasStmt.mk 5 ("Kd < 100nM") 1, TasStmt.mk 5 ("100nM < Kd < 1uM") 2]
     (by decide)).1⟩

/-- Folding the grounding loop over an appended curation runs the loop body
once on the accumulated dict. -/
theorem get_grounding_curations_append (curs : List Curation) (cur : Curation) :
    get_grounding_curations (curs ++ [cur]) =
      ground_step (get_grounding_curations curs) cur := by
  unfold get_grounding_curations
  rw [List.foldl_append]
  rfl

/-- C6: get_grounding_curations maps each grounding curation whose text
matches the bracket-arrow pattern with a well-formed ID list to the mapping
from its bracketed mention to its namespace-to-identifier dict (the fever
example in the first conjunct); a curation with absent text, empty text,
non-matching text, or a malformed ID list contributes nothing; and the last
curation processed for a mention text wins. -/
theorem grounding_curations_spec :
    (lookupA (("fever").data)
        (get_grounding_curations
          [⟨some ("[fever] -> MESH:D005334|TEXT:fever"), ("c")⟩]) =
      some [(("MESH").data, ("D005334").data), (("TEXT").data, ("fever").data)]) ∧
    (∀ curs cur, cur.text = none →
      get_grounding_curations (curs ++ [cur]) = get_grounding_curations curs) ∧
    (∀ curs cur t, cur.text = some t → t.data = [] →
      get_grounding_curations (curs ++ [cur]) = get_grounding_curations curs) ∧
    (∀ curs cur t, cur.text = some t → groundingMatch (pyStrip t.data) = none →
      get_grounding_curations (curs ++ [cur]) = get_grounding_curations curs) ∧
    (∀ curs cur t a b, cur.text = some t →
      groundingMatch (pyStrip t.data) = some (a, b) → parseDbids b = none →
      get_grounding_curations (curs ++ [cur]) = get_grounding_curations curs) ∧
    (∀ curs cur t a b es, cur.text = some t → t.data ≠ [] →
      groundingMatch (pyStrip t.data) = some (a, b) → parseDbids b = some es →
      lookupA a (get_grounding_curations (curs ++ [cur])) =
        some (dictOfPairs es)) := by
  refine ⟨by decide, ?_, ?_, ?_, ?_, ?_⟩
  · intro curs cur hct
    rw [get_grounding_curations_append]
    unfold ground_step
    simp [ground_parse, hct]
  · intro curs cur t hct hempty
    rw [get_grounding_curations_append]
    unfold ground_step
    have hie : t.data.isEmpty := by rw [List.isEmpty_iff]; exact hempty
    simp [ground_parse, hct, hie]
  · intro curs cur t hct hmatch
    rw [get_grounding_curations_append]
    unfold ground_step
    by_cases hie : t.data.isEmpty
    · simp [ground_parse, hct, hie]
    · simp [ground_parse, hct, hie, hmatch]
  · intro curs cur t a b hct hmatch hparse
    rw [get_grounding_curations_append]
    unfold ground_step
    by_cases hie : t.data.isEmpty
    · simp [ground_parse, hct, hie]
    · simp [ground_parse, hct, hie, hmatch, hparse]
  · intro curs cur t a b es hct hne hmatch hparse
    rw [get_grounding_curations_append]
    unfold ground_step
    have hie : ¬ t.data.isEmpty := by rw [List.isEmpty_iff]; exact hne
    have hgp : ground_parse cur = some (a, dictOfPairs es) := by
      simp [ground_parse, hct, hie, hmatch, hparse]
    rw [hgp]
    exact lookupA_upsertA_self _ a (dictOfPairs es)

/-- Witness for C6: a skipped non-matching curation, and an overwrite where
the last curation for the fever mention wins. -/
theorem grounding_curations_spec_witness :
    (get_grounding_curations
        [⟨some ("[fever] -> MESH:D005334"), ("c")⟩, ⟨some ("no match"), ("d")⟩] =
      get_grounding_curations [⟨some ("[fever] -> MESH:D005334"), ("c")⟩]) ∧
    lookupA (("fever").data)
        (get_grounding_curations
          [⟨some ("[fever] -> MESH:D005334"), ("c")⟩,
           ⟨some ("[fever] -> A:1"), ("d")⟩]) =
      some (dictOfPairs [(("A").data, ("1").data)]) := by
  constructor
  · exact (grounding_curations_spec).2.2.2.1
      [⟨some ("[fever] -> MESH:D005334"), ("c")⟩] ⟨some ("no match"), ("d")⟩
      ("no match") rfl (by decide)
  · exact (grounding_curations_spec).2.2.2.2.2
      [⟨some ("[fever] -> MESH:D005334"), ("c")⟩] ⟨some ("[fever] -> A:1"), ("d")⟩
      ("[fever] -> A:1") (("fever").data) (("A:1").data)
      [(("A").data, ("1").data)] rfl (by decide) (by decide) (by decide)

/-- The scan skips a position where the pa_hash pattern is not a prefix. -/
theorem scanPaHash_cons_fail (c : Char) (s : List Char)
    (h : paHashPat.isPrefixOf (c :: s) = false) :
    scanPaHash (c :: s) = scanPaHash s := by
  rw [scanPaHash]
  simp [h]

/-- The scan skips any character other than an opening parenthesis. -/
theorem scanPaHash_cons_ne (c : Char) (s : List Char) (h : ¬ c = '(') :
    scanPaHash (c :: s) = scanPaHash s := by
  apply scanPaHash_cons_fail
  have hpat : paHashPat = '(' :: (['p', 'a', '_', 'h', 'a', 's', 'h', ')', '=', '(']) := by
    decide
  rw [hpat]
  simp [List.isPrefixOf]
  intro hh
  exact absurd hh.symm h

/-- A string without an opening parenthesis cannot contain the pa_hash
pattern, so the scan fails on it. -/
theorem scanPaHash_no_paren : ∀ s : List Char, '(' ∉ s → scanPaHash s = none
  | [], _ => rfl
  | c :: rest, h => by
    have hc : ¬ c = '(' := by
      intro hh
      exact h (by rw [hh]; exact List.mem_cons_self _ _)
    rw [scanPaHash_cons_ne c rest hc]
    exact scanPaHash_no_paren rest (fun hm => h (List.mem_cons_of_mem c hm))

/-- At the pa_hash occurrence of a negative-hash detail line the pattern
matches but the next character is the minus sign, not a digit, so the scan
moves on. -/
theorem scanPaHash_neg_occ (rest : List Char) :
    scanPaHash ('(' :: 'p' :: 'a' :: '_' :: 'h' :: 'a' :: 's' :: 'h' :: ')' ::
        '=' :: '(' :: '-' :: rest) =
      scanPaHash ('p' :: 'a' :: '_' :: 'h' :: 'a' :: 's' :: 'h' :: ')' ::
        '=' :: '(' :: '-' :: rest) := by
  rw [scanPaHash]
  have hpre : paHashPat.isPrefixOf ('(' :: 'p' :: 'a' :: '_' :: 'h' :: 'a' :: 's' ::
      'h' :: ')' :: '=' :: '(' :: '-' :: rest) = true := by
    have hpat : paHashPat = ['(', 'p', 'a', '_', 'h', 'a', 's', 'h', ')', '=', '('] := by
      decide
    rw [hpat]
    simp [List.isPrefixOf]
  rw [hpre]
  simp only [if_true]
  have hd : ('-' : Char).isDigit = false := by decide
  simp [takeDigits, hd, paHashPat]

/-- At the opening parenthesis right before the minus sign the pattern fails
on its second character, so the scan moves on. -/
theorem scanPaHash_neg_occ2 (rest : List Char) :
    scanPaHash ('(' :: '-' :: rest) = scanPaHash ('-' :: rest) := by
  apply scanPaHash_cons_fail
  have hpat : paHashPat = '(' :: 'p' :: (['a', '_', 'h', 'a', 's', 'h', ')', '=', '(']) := by
    decide
  rw [hpat]
  simp [List.isPrefixOf]

/-- C10: a foreign-key detail line for a negative pa_hash value cannot match
the digits-only extraction pattern, so submit_curation re-raises the original
integrity error for it, and no hash value ever produces a BadHashError when
the requested hash is negative. -/
theorem negative_hash_never_bad_hash (hv : Int) (ds : List Char)
    (hds : ∀ c ∈ ds, c.isDigit = true) :
    reMatchDetail (negDetailLine ds) = none ∧
    submit_curation_on_error hv (negDetailLine ds) = .reraised ∧
    (∀ hv2 : Int, hv2 < 0 → ∀ line h,
      submit_curation_on_error hv2 line ≠ .badHashError h) := by
  have hsuf : '(' ∉ ds ++ negDetailTail := by
    intro hm
    rcases List.mem_append.mp hm with h1 | h2
    · exact absurd (hds _ h1) (by decide)
    · revert h2
      decide
  have hre : reMatchDetail (negDetailLine ds) = none := by
    have hscan : scanPaHash (' ' :: 'K' :: 'e' :: 'y' :: ' ' :: '(' :: 'p' :: 'a' ::
        '_' :: 'h' :: 'a' :: 's' :: 'h' :: ')' :: '=' :: '(' :: '-' ::
        (ds ++ negDetailTail)) = none := by
      rw [scanPaHash_cons_ne ' ' _ (by decide), scanPaHash_cons_ne 'K' _ (by decide),
          scanPaHash_cons_ne 'e' _ (by decide), scanPaHash_cons_ne 'y' _ (by decide),
          scanPaHash_cons_ne ' ' _ (by decide)]
      rw [scanPaHash_neg_occ]
      rw [scanPaHash_cons_ne 'p' _ (by decide), scanPaHash_cons_ne 'a' _ (by decide),
          scanPaHash_cons_ne '_' _ (by decide), scanPaHash_cons_ne 'h' _ (by decide),
          scanPaHash_cons_ne 'a' _ (by decide), scanPaHash_cons_ne 's' _ (by decide),
          scanPaHash_cons_ne 'h' _ (by decide), scanPaHash_cons_ne ')' _ (by decide),
          scanPaHash_cons_ne '=' _ (by decide)]
      rw [scanPaHash_neg_occ2]
      rw [scanPaHash_cons_ne '-' _ (by decide)]
      exact scanPaHash_no_paren _ hsuf
    have hpre : detailPat.isPrefixOf (negDetailLine ds) = true := rfl
    rw [reMatchDetail]
    simp only [hpre, if_true]
    exact hscan
  refine ⟨hre, by simp [submit_curation_on_error, hre], ?_⟩
  intro hv2 hneg line h hc
  unfold submit_curation_on_error at hc
  cases hre2 : reMatchDetail line with
  | none =>
    rw [hre2] at hc
    cases hc
  | some ds2 =>
    rw [hre2] at hc
    by_cases he : (digitsVal ds2 : Int) = hv2
    · have hge : (0 : Int) ≤ (digitsVal ds2 : Int) := Int.ofNat_nonneg _
      rw [he] at hge
      omega
    · simp [he] at hc

/-- Witness for C10 at the concrete digit string 42 and hash -42. -/
theorem negative_hash_never_bad_hash_witness :
    (∀ c ∈ ['4', '2'], c.isDigit = true) ∧
    reMatchDetail (negDetailLine ['4', '2']) = none ∧
    submit_curation_on_error (-42) (negDetailLine ['4', '2']) = .reraised :=
  ⟨by decide,
   (negative_hash_never_bad_hash (-42) ['4', '2'] (by decide)).1,
   (negative_hash_never_bad_hash (-42) ['4', '2'] (by decide)).2.1⟩

/-- Duplicates reported by one exact-duplicate group are never linked ids. -/
theorem detectGroup_dups_unlinked (linked : List Nat) :
    ∀ g k d, detectGroup linked g = some (k, d) → ∀ p ∈ d, p.1 ∉ linked
  | [], k, d, h => by
    simp only [detectGroup] at h
    cases h
    simp
  | [t], k, d, h => by
    simp only [detectGroup] at h
    cases h
    simp
  | t :: t2 :: ts, k, d, h => by
    simp only [detectGroup] at h
    by_cases hemp : ((t :: t2 :: ts).filter (fun p => decide (p.1 ∈ linked))).isEmpty
    · rw [if_pos hemp] at h
      cases h
      intro p hp
      rw [List.isEmpty_iff, List.filter_eq_nil_iff] at hemp
      have := hemp p (List.mem_cons_of_mem t hp)
      simpa using this
    · rw [if_neg hemp] at h
      by_cases hone : ((t :: t2 :: ts).filter (fun p => decide (p.1 ∈ linked))).length = 1
      · rw [if_pos hone] at h
        cases h
        intro p hp
        have := List.of_mem_filter hp
        simpa using this
      · rw [if_neg hone] at h
        cases h

/-- Duplicates reported across all exact-duplicate groups are never linked. -/
theorem detectExact_dups_unlinked (linked : List Nat) :
    ∀ gs k d, detectExact linked gs = some (k, d) → ∀ p ∈ d, p.1 ∉ linked
  | [], k, d, h => by
    simp only [detectExact] at h
    cases h
    simp
  | g :: gs, k, d, h => by
    simp only [detectExact, bind, Option.bind] at h
    cases hg : detectGroup linked g with
    | none => rw [hg] at h; cases h
    | some r =>
      rw [hg] at h
      cases hgs : detectExact linked gs with
      | none => rw [hgs] at h; cases h
      | some r2 =>
        rw [hgs] at h
        cases h
        intro p hp
        rcases List.mem_append.mp hp with h1 | h2
        · exact detectGroup_dups_unlinked linked g r.1 r.2 (by rw [hg]) p h1
        · exact detectExact_dups_unlinked linked gs r2.1 r2.2 (by rw [hgs]) p h2

/-- Duplicates reported for one rv_dict are never linked. -/
theorem processRvDict_dups_unlinked (ignoreDup : Bool) (linked : List Nat)
    (rvList : List String) (rvd : RvDict) (k d b : List StmtTpl)
    (h : processRvDict ignoreDup linked rvList rvd = some (k, d, b)) :
    ∀ p ∈ d, p.1 ∉ linked := by
  unfold processRvDict at h
  cases hb : pickBestRv rvList rvd with
  | none => rw [hb] at h; cases h
  | some best =>
    rw [hb] at h
    simp only [bind, Option.bind] at h
    cases hid : ignoreDup with
    | true =>
      rw [hid] at h
      simp only [if_true] at h
      cases h
      simp
    | false =>
      rw [hid] at h
      simp only [Bool.false_eq_true, if_false] at h
      cases hde : detectExact linked (bestGroups best.2) with
      | none => rw [hde] at h; cases h
      | some r =>
        rw [hde] at h
        cases h
        exact detectExact_dups_unlinked linked _ r.1 r.2 (by rw [hde])

/-- Duplicates reported over a list of rv_dicts are never linked. -/
theorem processRvDicts_dups_unlinked (ignoreDup : Bool) (linked : List Nat)
    (rvList : List String) :
    ∀ vds k d b, processRvDicts ignoreDup linked rvList vds = some (k, d, b) →
      ∀ p ∈ d, p.1 ∉ linked
  | [], k, d, b, h => by
    simp only [processRvDicts] at h
    cases h
    simp
  | vd :: vds, k, d, b, h => by
    simp only [processRvDicts, bind, Option.bind] at h
    cases h1 : processRvDict ignoreDup linked rvList vd with
    | none => rw [h1] at h; cases h
    | some r =>
      rw [h1] at h
      cases h2 : processRvDicts ignoreDup linked rvList vds with
      | none => rw [h2] at h; cases h
      | some r2 =>
        rw [h2] at h
        cases h
        intro p hp
        rcases List.mem_append.mp hp with hm | hm
        · exact processRvDict_dups_unlinked ignoreDup linked rvList vd
            r.1 r.2.1 r.2.2 (by rw [h1]) p hm
        · exact processRvDicts_dups_unlinked ignoreDup linked rvList vds
            r2.1 r2.2.1 r2.2.2 (by rw [h2]) p hm

/-- Duplicates reported over the reader table are never linked. -/
theorem processReaders_dups_unlinked (ignoreDup : Bool) (linked : List Nat)
    (sd1 : SrcDict) :
    ∀ rs k d b, processReaders ignoreDup linked sd1 rs = some (k, d, b) →
      ∀ p ∈ d, p.1 ∉ linked
  | [], k, d, b, h => by
    simp only [processReaders] at h
    cases h
    simp
  | (reader, rvList) :: rs, k, d, b, h => by
    simp only [processReaders, bind, Option.bind] at h
    cases h1 : processRvDicts ignoreDup linked rvList (getsReader sd1 reader) with
    | none => rw [h1] at h; cases h
    | some r =>
      rw [h1] at h
      cases h2 : processReaders ignoreDup linked sd1 rs with
      | none => rw [h2] at h; cases h
      | some r2 =>
        rw [h2] at h
        cases h
        intro p hp
        rcases List.mem_append.mp hp with hm | hm
        · exact processRvDicts_dups_unlinked ignoreDup linked rvList _
            r.1 r.2.1 r.2.2 (by rw [h1]) p hm
        · exact processReaders_dups_unlinked ignoreDup linked sd1 rs
            r2.1 r2.2.1 r2.2.2 (by rw [h2]) p hm

/-- Duplicates reported for one text ref are never linked. -/
theorem processTr_dups_unlinked (ignoreDup : Bool) (linked : List Nat)
    (sd : SrcDict) (k d b : List StmtTpl)
    (h : processTr ignoreDup linked sd = some (k, d, b)) :
    ∀ p ∈ d, p.1 ∉ linked := by
  unfold processTr at h
  simp only [bind, Option.bind] at h
  cases h1 : srcLoop sd with
  | none => rw [h1] at h; cases h
  | some r =>
    obtain ⟨sd1, bettSrc⟩ := r
    rw [h1] at h
    dsimp only at h
    cases h2 : processReaders ignoreDup linked sd1 reader_versions with
    | none => rw [h2] at h; cases h
    | some r2 =>
      rw [h2] at h
      dsimp only at h
      cases h
      exact processReaders_dups_unlinked ignoreDup linked sd1 reader_versions
        r2.1 r2.2.1 r2.2.2 (by rw [h2])

/-- Exact-duplicate statement ids reported by the reading-derived filtering
stage are never already-linked ids. -/
theorem rdg_dups_unlinked (ignoreDup : Bool) (linked : List Nat) :
    ∀ nd r, get_filtered_rdg_stmts_core ignoreDup linked nd = some r →
      ∀ s ∈ r.dupSids, s ∉ linked
  | [], r, h => by
    simp only [get_filtered_rdg_stmts_core] at h
    cases h
    simp
  | (trid, sd) :: rest, r, h => by
    simp only [get_filtered_rdg_stmts_core, bind, Option.bind] at h
    cases h1 : processTr ignoreDup linked sd with
    | none => rw [h1] at h; cases h
    | some p =>
      rw [h1] at h
      cases h2 : get_filtered_rdg_stmts_core ignoreDup linked rest with
      | none => rw [h2] at h; cases h
      | some r2 =>
        rw [h2] at h
        cases h
        intro s hs
        rcases List.mem_append.mp hs with hm | hm
        · obtain ⟨p2, hp2, hps⟩ := List.mem_map.mp hm
          rw [← hps]
          exact processTr_dups_unlinked ignoreDup linked sd
            p.1 p.2.1 p.2.2 (by rw [h1]) p2 hp2
        · exact rdg_dups_unlinked ignoreDup linked rest r2 (by rw [h2]) s hm

/-- Duplicate ids reported by _choose_unique are never in not_duplicates. -/
theorem choose_unique_dups_unlinked (getFull : Bool) (notDup : List Nat) :
    ∀ g s d, choose_unique getFull notDup g = some (s, d) → ∀ x ∈ d, x ∉ notDup
  | [], s, d, h => by simp only [choose_unique] at h; cases h
  | [t], s, d, h => by
    simp only [choose_unique] at h
    cases h
    simp
  | t :: t2 :: ts, s, d, h => by
    simp only [choose_unique] at h
    cases hf : (t :: t2 :: ts).filter (fun p => decide (p.sid ∈ notDup)) with
    | nil =>
      rw [hf] at h
      cases h
      intro x hx
      obtain ⟨p, hp, hps⟩ := List.mem_map.mp hx
      have := List.of_mem_filter hp
      rw [← hps]
      simpa using this
    | cons a l =>
      cases l with
      | nil =>
        rw [hf] at h
        cases h
        intro x hx
        obtain ⟨p, hp, hps⟩ := List.mem_map.mp hx
        have := List.of_mem_filter hp
        rw [← hps]
        simpa using this
      | cons a2 l2 =>
        rw [hf] at h
        cases h

/-- Duplicate ids of the single-process database stage are never in
not_duplicates. -/
theorem db_single_dups_unlinked (getFull : Bool) (notDup : List Nat) :
    ∀ grps res, db_stmts_single getFull notDup grps = .ok res →
      ∀ x ∈ res.2, x ∉ notDup
  | [], res, h => by
    simp only [db_stmts_single] at h
    cases h
    simp
  | g :: grps, res, h => by
    simp only [db_stmts_single] at h
    cases hg : choose_unique getFull notDup g with
    | none => rw [hg] at h; cases h
    | some r =>
      rw [hg] at h
      simp only [bind, Except.bind] at h
      cases hrest : db_stmts_single getFull notDup grps with
      | error e => rw [hrest] at h; cases h
      | ok res2 =>
        rw [hrest] at h
        simp only [pure, Except.pure] at h
        cases h
        intro x hx
        rcases List.mem_append.mp hx with hm | hm
        · exact choose_unique_dups_unlinked getFull notDup g r.1 r.2 (by rw [hg]) x hm
        · exact db_single_dups_unlinked getFull notDup grps res2 (by rw [hrest]) x hm

/-- Results of the pool map have the duplicate-id property of
_choose_unique. -/
theorem poolMap_dups_unlinked (getFull : Bool) (notDup : List Nat) :
    ∀ grps res, poolMap getFull notDup grps = .ok res →
      ∀ r ∈ res, ∀ x ∈ r.2, x ∉ notDup
  | [], res, h => by
    simp only [poolMap] at h
    cases h
    simp
  | g :: grps, res, h => by
    simp only [poolMap, optErr, bind, Except.bind] at h
    cases hg : choose_unique getFull notDup g with
    | none => rw [hg] at h; cases h
    | some r0 =>
      rw [hg] at h
      cases hrest : poolMap getFull notDup grps with
      | error e => rw [hrest] at h; cases h
      | ok res2 =>
        rw [hrest] at h
        simp only [pure, Except.pure] at h
        cases h
        intro r hr
        rcases List.mem_cons.mp hr with hm | hm
        · rw [hm]
          exact choose_unique_dups_unlinked getFull notDup g r0.1 r0.2 (by rw [hg])
        · exact poolMap_dups_unlinked getFull notDup grps res2 (by rw [hrest]) r hm

/-- Duplicate ids of the database-derived stage, on either path, are never in
not_duplicates. -/
theorem db_stage_dups_unlinked (getFull : Bool) (notDup : List Nat)
    (numProcs : Nat) (grps : List (List DbTpl)) (res : List Nat × List Nat)
    (h : get_filtered_db_stmts getFull notDup numProcs grps = .ok res) :
    ∀ x ∈ res.2, x ∉ notDup := by
  unfold get_filtered_db_stmts at h
  by_cases hnp : numProcs = 1
  · rw [if_pos hnp] at h
    exact db_single_dups_unlinked getFull notDup grps res h
  · rw [if_neg hnp] at h
    unfold db_stmts_pool at h
    simp only [bind, Except.bind] at h
    cases hp : poolMap getFull notDup grps with
    | error e => rw [hp] at h; cases h
    | ok pres =>
      rw [hp] at h
      cases pres with
      | nil => cases h
      | cons r rs =>
        simp only [pure, Except.pure] at h
        cases h
        intro x hx
        obtain ⟨dl, hdl, hxd⟩ := List.mem_flatten.mp hx
        obtain ⟨rr, hrr, hrd⟩ := List.mem_map.mp hdl
        have := poolMap_dups_unlinked getFull notDup grps (r :: rs) (by rw [hp]) rr hrr
        rw [hrd] at this
        exact this x hxd

/-- The database stage never fails with the disjointness error. -/
theorem db_stage_error_kind (getFull : Bool) (notDup : List Nat)
    (numProcs : Nat) (grps : List (List DbTpl)) (e : DistillErr)
    (h : get_filtered_db_stmts getFull notDup numProcs grps = .error e) :
    e = .dbAssert ∨ e = .dbUnzip := by
  unfold get_filtered_db_stmts at h
  by_cases hnp : numProcs = 1
  · rw [if_pos hnp] at h
    clear hnp
    induction grps with
    | nil => cases h
    | cons g grps ih =>
      simp only [db_stmts_single] at h
      cases hg : choose_unique getFull notDup g with
      | none =>
        rw [hg] at h
        cases h
        exact Or.inl rfl
      | some r =>
        rw [hg] at h
        simp only [bind, Except.bind] at h
        cases hrest : db_stmts_single getFull notDup grps with
        | error e2 =>
          rw [hrest] at h
          cases h
          exact ih hrest
        | ok res2 =>
          rw [hrest] at h
          simp only [pure, Except.pure] at h
          cases h
  · rw [if_neg hnp] at h
    unfold db_stmts_pool at h
    simp only [bind, Except.bind] at h
    have hpool : ∀ grps2 e2, poolMap getFull notDup grps2 = Except.error e2 →
        e2 = DistillErr.dbAssert := by
      intro grps2
      induction grps2 with
      | nil => intro e2 hh; cases hh
      | cons g grps2 ih =>
        intro e2 hh
        simp only [poolMap, optErr, bind, Except.bind] at hh
        cases hg : choose_unique getFull notDup g with
        | none =>
          rw [hg] at hh
          cases hh
          rfl
        | some r =>
          rw [hg] at hh
          cases hrest : poolMap getFull notDup grps2 with
          | error e3 =>
            rw [hrest] at hh
            cases hh
            exact ih e2 hrest
          | ok res2 =>
            rw [hrest] at hh
            simp only [pure, Except.pure] at hh
            cases hh
    cases hp : poolMap getFull notDup grps with
    | error e2 =>
      rw [hp] at h
      dsimp only at h
      cases h
      exact Or.inl (hpool grps _ hp)
    | ok pres =>
      rw [hp] at h
      dsimp only at h
      cases pres with
      | nil =>
        cases h
        exact Or.inr rfl
      | cons r rs =>
        simp only [pure, Except.pure] at h
        cases h

/-- The intersection of two lists is empty when no member of the second is a
member of the first. -/
theorem inter_isEmpty_of_disjoint (l d : List Nat) (h : ∀ x ∈ d, x ∉ l) :
    (l.inter d).isEmpty := by
  rw [List.isEmpty_iff, List.eq_nil_iff_forall_not_mem]
  intro x hx
  have hx2 : x ∈ l ∩ d := hx
  rw [List.mem_inter_iff] at hx2
  exact h x hx2.2 hx2.1

/-- C4: after the reading-derived stage the exact-duplicate ids are disjoint
from the linked ids, the database-derived stage reports only duplicate ids
outside the linked set, and consequently the disjointness assertions of
distill_stmts never fire: distill never halts with the disjointness
violation. -/
theorem distill_disjoint_invariant (handleDup : HandleDup) (getFull : Bool)
    (numProcs : Nat) (linkedFromDb : List Nat) (nd : StmtND)
    (dbGroups : List (List DbTpl)) :
    (∀ (linked : List Nat) r,
        get_filtered_rdg_stmts_core false linked nd = some r →
        ∀ s ∈ r.dupSids, s ∉ linked) ∧
    (∀ (notDup : List Nat) res,
        get_filtered_db_stmts getFull notDup numProcs dbGroups = .ok res →
        ∀ s ∈ res.2, s ∉ notDup) ∧
    distill_core handleDup getFull numProcs linkedFromDb nd dbGroups ≠
      Except.error DistillErr.disjointAssert := by
  refine ⟨fun linked r h => rdg_dups_unlinked false linked nd r h,
    fun notDup res h => db_stage_dups_unlinked getFull notDup numProcs dbGroups res h,
    ?_⟩
  unfold distill_core
  intro hc
  set linked := (if handleDup = HandleDup.ignoreDups then [] else linkedFromDb) with hl
  simp only [bind, Except.bind] at hc
  cases hr : get_filtered_rdg_stmts_core false linked nd with
  | none => rw [hr] at hc; simp [optErr] at hc
  | some r =>
    rw [hr] at hc
    simp only [optErr] at hc
    cases hp : projectStmts getFull r.kept with
    | none => rw [hp] at hc; simp at hc
    | some stmts =>
      rw [hp] at hc
      simp only [] at hc
      have hind1 : (linked.inter r.dupSids).isEmpty :=
        inter_isEmpty_of_disjoint linked r.dupSids
          (rdg_dups_unlinked false linked nd r hr)
      rw [if_pos hind1] at hc
      cases hdb : get_filtered_db_stmts getFull linked numProcs dbGroups with
      | error e =>
        rw [hdb] at hc
        dsimp only at hc
        cases hc
        rcases db_stage_error_kind getFull linked numProcs dbGroups _ hdb with
          h1 | h1 <;> cases h1
      | ok res =>
        rw [hdb] at hc
        dsimp only at hc
        have hind2 : (linked.inter (r.dupSids ++ res.2)).isEmpty := by
          apply inter_isEmpty_of_disjoint
          intro x hx
          rcases List.mem_append.mp hx with hm | hm
          · exact rdg_dups_unlinked false linked nd r hr x hm
          · exact db_stage_dups_unlinked getFull linked numProcs dbGroups res hdb x hm
        rw [if_pos hind2] at hc
        cases hc

/-- Witness for C4 on a concrete tree with a linked id, a duplicate group and
a database group. -/
theorem distill_disjoint_invariant_witness :
    (get_filtered_rdg_stmts_core false [12]
        [(1, [("pubmed", [(10, [("reach", [("61059a-biores-e9ee36",
          [(100, [(1000, [(11, none), (12, none), (13, none)])])])])])])])] =
      some ⟨[(12, none)], [11, 13], []⟩) ∧
    (∀ s ∈ [11, 13], s ∉ [12]) ∧
    distill_core HandleDup.delete false 1 [12]
        [(1, [("pubmed", [(10, [("reach", [("61059a-biores-e9ee36",
          [(100, [(1000, [(11, none), (12, none), (13, none)])])])])])])])]
        [[DbTpl.mk 7 12 0, DbTpl.mk 7 14 0]] ≠
      Except.error DistillErr.disjointAssert := by
  refine ⟨by decide, ?_, ?_⟩
  · exact (distill_disjoint_invariant HandleDup.delete false 1 [12]
      [(1, [("pubmed", [(10, [("reach", [("61059a-biores-e9ee36",
        [(100, [(1000, [(11, none), (12, none), (13, none)])])])])])])])]
      [[DbTpl.mk 7 12 0, DbTpl.mk 7 14 0]]).1 [12] ⟨[(12, none)], [11, 13], []⟩
      (by decide)
  · exact (distill_disjoint_invariant HandleDup.delete false 1 [12]
      [(1, [("pubmed", [(10, [("reach", [("61059a-biores-e9ee36",
        [(100, [(1000, [(11, none), (12, none), (13, none)])])])])])])])]
      [[DbTpl.mk 7 12 0, DbTpl.mk 7 14 0]]).2.2

/-- The leaves of an appended source dict are the appended leaves. -/
theorem srcLeaves_append (a b : SrcDict) :
    srcLeaves (a ++ b) = srcLeaves a ++ srcLeaves b := by
  simp [srcLeaves, List.map_append, List.flatten_append]

/-- min over the source dict returns an entry, its positional removal, and a
least source index among all entries. -/
theorem pickWorst_spec :
    ∀ sd w rest, pickWorst sd = some (w, rest) →
      (∃ l1 l2, sd = l1 ++ w :: l2 ∧ rest = l1 ++ l2) ∧
      (∀ e ∈ sd, ∃ i j, srcIdx w.1 = some i ∧ srcIdx e.1 = some j ∧ i ≤ j)
  | [], w, rest, h => by simp [pickWorst] at h
  | [e], w, rest, h => by
    by_cases hs : (srcIdx e.1).isSome
    · simp only [pickWorst, if_pos hs] at h
      cases h
      refine ⟨⟨[], [], rfl, rfl⟩, ?_⟩
      intro x hx
      obtain ⟨i, hi⟩ := Option.isSome_iff_exists.mp hs
      have hxe : x = e := by simpa using hx
      subst hxe
      exact ⟨i, i, hi, hi, le_rfl⟩
    · simp only [pickWorst, if_neg hs] at h
      cases h
  | e :: f :: rest0, w, rest, h => by
    simp only [pickWorst, bind, Option.bind] at h
    cases hi : srcIdx e.1 with
    | none => rw [hi] at h; cases h
    | some i =>
      rw [hi] at h
      dsimp only at h
      cases hp : pickWorst (f :: rest0) with
      | none => rw [hp] at h; cases h
      | some mr =>
        obtain ⟨m, r⟩ := mr
        rw [hp] at h
        dsimp only at h
        cases hj : srcIdx m.1 with
        | none => rw [hj] at h; cases h
        | some j =>
          rw [hj] at h
          dsimp only at h
          obtain ⟨⟨l1, l2, hd, hr⟩, hmin⟩ := pickWorst_spec (f :: rest0) m r hp
          by_cases hij : i ≤ j
          · rw [if_pos hij] at h
            cases h
            refine ⟨⟨[], f :: rest0, rfl, rfl⟩, ?_⟩
            intro x hx
            rcases List.mem_cons.mp hx with hxe | hxm
            · subst hxe
              exact ⟨i, i, hi, hi, le_rfl⟩
            · obtain ⟨jm, jx, hjm, hjx, hle⟩ := hmin x hxm
              rw [hj] at hjm
              cases hjm
              exact ⟨i, jx, hi, hjx, le_trans hij hle⟩
          · rw [if_neg hij] at h
            cases h
            refine ⟨⟨e :: l1, l2, ?_, ?_⟩, ?_⟩
            · rw [List.cons_append, ← hd]
            · rw [List.cons_append, ← hr]
            · intro x hx
              rcases List.mem_cons.mp hx with hxe | hxm
              · subst hxe
                exact ⟨j, i, hj, hi, le_of_not_le hij⟩
              · exact hmin x hxm

/-- The bettered leaves of the source loop together with the leaves of the
surviving dict are exactly the original leaves, as a multiset. -/
theorem srcLoopF_perm :
    ∀ fuel sd sd1 bett, srcLoopF fuel sd = some (sd1, bett) →
      (↑bett + ↑(srcLeaves sd1) : Multiset StmtTpl) = ↑(srcLeaves sd)
  | 0, sd, sd1, bett, h => by
    simp only [srcLoopF] at h
    by_cases hl : sd.length > 1
    · rw [if_pos hl] at h; cases h
    · rw [if_neg hl] at h
      cases h
      simp
  | fuel + 1, sd, sd1, bett, h => by
    simp only [srcLoopF] at h
    by_cases hl : sd.length > 1
    · rw [if_pos hl] at h
      cases hp : pickWorst sd with
      | none => rw [hp] at h; cases h
      | some wr =>
        obtain ⟨w, rest⟩ := wr
        rw [hp] at h
        dsimp only at h
        cases hs : srcLoopF fuel rest with
        | none => rw [hs] at h; cases h
        | some sr =>
          obtain ⟨sdf, more⟩ := sr
          rw [hs] at h
          dsimp only at h
          cases h
          obtain ⟨⟨l1, l2, hd, hr⟩, _⟩ := pickWorst_spec sd w rest hp
          have ih := srcLoopF_perm fuel rest sd1 more hs
          subst hd
          subst hr
          have ih2 : (↑more + ↑(srcLeaves sd1) : Multiset StmtTpl) =
              ↑(srcLeaves l1) + ↑(srcLeaves l2) := by
            rw [ih, srcLeaves_append, ← Multiset.coe_add]
          have hsw : srcLeaves (l1 ++ w :: l2) =
              srcLeaves l1 ++ (tcLeaves w.2 ++ srcLeaves l2) := by
            rw [srcLeaves_append]
            simp [srcLeaves]
          rw [hsw, ← Multiset.coe_add, ← Multiset.coe_add, ← Multiset.coe_add,
            add_assoc, ih2]
          abel
    · rw [if_neg hl] at h
      cases h
      simp

/-- Every leaf under a source tier strictly worse than another tier present
in the same dict ends among the bettered leaves of the source loop. -/
theorem srcLoopF_bettered :
    ∀ fuel sd sd1 bett, srcLoopF fuel sd = some (sd1, bett) →
      ∀ e ∈ sd, ∀ f ∈ sd, srcWorse e f → ∀ t ∈ tcLeaves e.2, t ∈ bett
  | 0, sd, sd1, bett, h => by
    simp only [srcLoopF] at h
    by_cases hl : sd.length > 1
    · rw [if_pos hl] at h; cases h
    · rw [if_neg hl] at h
      cases h
      rintro e he f hf ⟨i, j, hi, hj, hij⟩ t ht
      exfalso
      cases sd with
      | nil => simp at he
      | cons x xs =>
        cases xs with
        | nil =>
          have hex : e = x := by simpa using he
          have hfx : f = x := by simpa using hf
          subst hex
          subst hfx
          rw [hi] at hj
          cases hj
          omega
        | cons y ys => simp at hl
  | fuel + 1, sd, sd1, bett, h => by
    simp only [srcLoopF] at h
    by_cases hl : sd.length > 1
    · rw [if_pos hl] at h
      cases hp : pickWorst sd with
      | none => rw [hp] at h; cases h
      | some wr =>
        obtain ⟨w, rest⟩ := wr
        rw [hp] at h
        dsimp only at h
        cases hs : srcLoopF fuel rest with
        | none => rw [hs] at h; cases h
        | some sr =>
          obtain ⟨sdf, more⟩ := sr
          rw [hs] at h
          dsimp only at h
          cases h
          obtain ⟨⟨l1, l2, hd, hr⟩, hmin⟩ := pickWorst_spec sd w rest hp
          rintro e he f hf ⟨i, j, hi, hj, hij⟩ t ht
          by_cases hew : e = w
          · rw [hew] at ht
            exact List.mem_append_left _ ht
          · have herest : e ∈ rest := by
              rw [hr]
              rcases List.mem_append.mp (by rw [← hd]; exact he :
                  e ∈ l1 ++ w :: l2) with h1 | h2
              · exact List.mem_append.mpr (Or.inl h1)
              · rcases List.mem_cons.mp h2 with h3 | h4
                · exact absurd h3 hew
                · exact List.mem_append.mpr (Or.inr h4)
            have hfw : ¬ f = w := by
              intro hfw
              obtain ⟨iw, ie, hiw, hie, hle⟩ := hmin e he
              rw [hfw] at hj
              rw [hiw] at hj
              cases hj
              rw [hi] at hie
              cases hie
              omega
            have hfrest : f ∈ rest := by
              rw [hr]
              rcases List.mem_append.mp (by rw [← hd]; exact hf :
                  f ∈ l1 ++ w :: l2) with h1 | h2
              · exact List.mem_append.mpr (Or.inl h1)
              · rcases List.mem_cons.mp h2 with h3 | h4
                · exact absurd h3 hfw
                · exact List.mem_append.mpr (Or.inr h4)
            exact List.mem_append_right _
              (srcLoopF_bettered fuel rest sd1 more hs e herest f hfrest
                ⟨i, j, hi, hj, hij⟩ t ht)
    · rw [if_neg hl] at h
      cases h
      rintro e he f hf ⟨i, j, hi, hj, hij⟩ t ht
      exfalso
      cases sd with
      | nil => simp at he
      | cons x xs =>
        cases xs with
        | nil =>
          have hex : e = x := by simpa using he
          have hfx : f = x := by simpa using hf
          subst hex
          subst hfx
          rw [hi] at hj
          cases hj
          omega
        | cons y ys => simp at hl

/-- max over the reader versions returns a member with a greatest version
index among all entries. -/
theorem pickBestRv_spec (rvList : List String) :
    ∀ rvd best, pickBestRv rvList rvd = some best →
      best ∈ rvd ∧
      ∀ e ∈ rvd, ∃ i j, rvIdx rvList e.1 = some i ∧
        rvIdx rvList best.1 = some j ∧ i ≤ j
  | [], best, h => by simp [pickBestRv] at h
  | [e], best, h => by
    by_cases hs : (rvIdx rvList e.1).isSome
    · simp only [pickBestRv, if_pos hs] at h
      cases h
      refine ⟨by simp, ?_⟩
      intro x hx
      obtain ⟨i, hi⟩ := Option.isSome_iff_exists.mp hs
      have hxe : x = e := by simpa using hx
      subst hxe
      exact ⟨i, i, hi, hi, le_rfl⟩
    · simp only [pickBestRv, if_neg hs] at h
      cases h
  | e :: f :: rest0, best, h => by
    simp only [pickBestRv, bind, Option.bind] at h
    cases hi : rvIdx rvList e.1 with
    | none => rw [hi] at h; cases h
    | some i =>
      rw [hi] at h
      dsimp only at h
      cases hp : pickBestRv rvList (f :: rest0) with
      | none => rw [hp] at h; cases h
      | some m =>
        rw [hp] at h
        dsimp only at h
        cases hj : rvIdx rvList m.1 with
        | none => rw [hj] at h; cases h
        | some j =>
          rw [hj] at h
          dsimp only at h
          obtain ⟨hmem, hmax⟩ := pickBestRv_spec rvList (f :: rest0) m hp
          by_cases hij : j ≤ i
          · rw [if_pos hij] at h
            cases h
            refine ⟨by simp, ?_⟩
            intro x hx
            rcases List.mem_cons.mp hx with hxe | hxm
            · subst hxe
              exact ⟨i, i, hi, hi, le_rfl⟩
            · obtain ⟨ix, jm, hix, hjm, hle⟩ := hmax x hxm
              rw [hj] at hjm
              cases hjm
              exact ⟨ix, i, hix, hi, le_trans hle hij⟩
          · rw [if_neg hij] at h
            cases h
            refine ⟨List.mem_cons_of_mem e hmem, ?_⟩
            intro x hx
            rcases List.mem_cons.mp hx with hxe | hxm
            · subst hxe
              exact ⟨i, j, hi, hj, le_of_not_le hij⟩
            · exact hmax x hxm

/-- The kept and duplicate pairs of one exact-duplicate group are together
exactly the group, as a multiset. -/
theorem detectGroup_perm (linked : List Nat) :
    ∀ g k d, detectGroup linked g = some (k, d) →
      (↑k + ↑d : Multiset StmtTpl) = ↑g
  | [], k, d, h => by
    simp only [detectGroup] at h
    cases h
    simp
  | [t], k, d, h => by
    simp only [detectGroup] at h
    cases h
    simp
  | t :: t2 :: ts, k, d, h => by
    simp only [detectGroup] at h
    by_cases hemp : ((t :: t2 :: ts).filter (fun p => decide (p.1 ∈ linked))).isEmpty
    · rw [if_pos hemp] at h
      cases h
      simp [Multiset.coe_add]
    · rw [if_neg hemp] at h
      by_cases hone : ((t :: t2 :: ts).filter (fun p => decide (p.1 ∈ linked))).length = 1
      · rw [if_pos hone] at h
        cases h
        have hneg : (fun p : StmtTpl => decide (p.1 ∉ linked)) =
            (fun p : StmtTpl => ! decide (p.1 ∈ linked)) := by
          funext p
          exact decide_not
        rw [hneg, Multiset.coe_add, Multiset.coe_eq_coe]
        exact List.filter_append_perm _ _
      · rw [if_neg hone] at h
        cases h

/-- The kept and duplicate pairs over all groups are together exactly the
flattened groups, as a multiset. -/
theorem detectExact_perm (linked : List Nat) :
    ∀ gs k d, detectExact linked gs = some (k, d) →
      (↑k + ↑d : Multiset StmtTpl) = ↑gs.flatten
  | [], k, d, h => by
    simp only [detectExact] at h
    cases h
    simp
  | g :: gs, k, d, h => by
    simp only [detectExact, bind, Option.bind] at h
    cases hg : detectGroup linked g with
    | none => rw [hg] at h; cases h
    | some r =>
      obtain ⟨k1, d1⟩ := r
      rw [hg] at h
      dsimp only at h
      cases hgs : detectExact linked gs with
      | none => rw [hgs] at h; cases h
      | some r2 =>
        obtain ⟨k2, d2⟩ := r2
        rw [hgs] at h
        dsimp only at h
        cases h
        have h1 := detectGroup_perm linked g k1 d1 hg
        have h2 := detectExact_perm linked gs k2 d2 hgs
        simp only [List.flatten_cons, ← Multiset.coe_add]
        calc (↑k1 + ↑k2 : Multiset StmtTpl) + (↑d1 + ↑d2)
            = (↑k1 + ↑d1) + (↑k2 + ↑d2) := by abel
          _ = ↑g + ↑gs.flatten := by rw [h1, h2]

/-- The flattened hash groups under the best reader version are its
leaves. -/
theorem bestGroups_flatten : ∀ rd : RidDict, (bestGroups rd).flatten = ridLeaves rd
  | [] => rfl
  | x :: rd => by
    simp only [bestGroups, ridLeaves, List.map_cons, List.flatten_cons,
      List.flatten_append]
    rw [show ((rd.map (fun p => p.2.map Prod.snd)).flatten).flatten =
      (bestGroups rd).flatten from rfl]
    rw [bestGroups_flatten rd]
    rfl

/-- Any filtered selection of reader-version subtrees has leaves bounded by
the whole dict's leaves. -/
theorem rv_filter_le_aux (q : String × RidDict → Bool) :
    ∀ rvd : RvDict,
      (↑(((rvd.filter q).map (fun p => ridLeaves p.2)).flatten) : Multiset StmtTpl) ≤
        ↑(rvLeaves rvd)
  | [] => by simp
  | x :: rvd => by
    have ih := rv_filter_le_aux q rvd
    by_cases hq : q x
    · rw [List.filter_cons_of_pos hq]
      simp only [List.map_cons, List.flatten_cons, rvLeaves, ← Multiset.coe_add]
      exact add_le_add_left ih _
    · rw [List.filter_cons_of_neg (by simpa using hq)]
      refine le_trans ih ?_
      simp only [rvLeaves, List.map_cons, List.flatten_cons, ← Multiset.coe_add]
      exact le_add_self

/-- The best version's leaves plus the other versions' leaves are bounded by
the dict's leaves. -/
theorem rv_filter_le (best : String × RidDict) :
    ∀ rvd : RvDict, best ∈ rvd →
      (↑(ridLeaves best.2) +
        ↑(((rvd.filter (fun p => decide (p.1 ≠ best.1))).map
            (fun p => ridLeaves p.2)).flatten) : Multiset StmtTpl) ≤
        ↑(rvLeaves rvd)
  | [], hmem => by simp at hmem
  | x :: rvd, hmem => by
    have hleaves : (↑(rvLeaves (x :: rvd)) : Multiset StmtTpl) =
        ↑(ridLeaves x.2) + ↑(rvLeaves rvd) := by
      simp [rvLeaves, Multiset.coe_add]
    by_cases hkey : x.1 = best.1
    · rw [List.filter_cons_of_neg (by simp [hkey])]
      rcases List.mem_cons.mp hmem with hbx | hbm
      · rw [hleaves, ← hbx]
        exact add_le_add_left (rv_filter_le_aux _ rvd) _
      · refine le_trans (rv_filter_le best rvd hbm) ?_
        rw [hleaves]
        exact le_add_self
    · rw [List.filter_cons_of_pos (by simp; exact fun hh => hkey hh)]
      have hbm : best ∈ rvd := by
        rcases List.mem_cons.mp hmem with hbx | hbm
        · exact absurd (by rw [hbx]) hkey
        · exact hbm
      have ih := rv_filter_le best rvd hbm
      rw [hleaves]
      simp only [List.map_cons, List.flatten_cons, ← Multiset.coe_add]
      calc (↑(ridLeaves best.2) : Multiset StmtTpl) +
            (↑(ridLeaves x.2) + ↑(((rvd.filter (fun p => decide (p.1 ≠ best.1))).map
              (fun p => ridLeaves p.2)).flatten))
          = ↑(ridLeaves x.2) + (↑(ridLeaves best.2) +
            ↑(((rvd.filter (fun p => decide (p.1 ≠ best.1))).map
              (fun p => ridLeaves p.2)).flatten)) := by abel
        _ ≤ ↑(ridLeaves x.2) + ↑(rvLeaves rvd) := add_le_add_left ih _

/-- The reader-version filtering step names a best version; its bettered
leaves are those of the other versions, and its kept and duplicate pairs are
together the best version's leaves. -/
theorem processRvDict_shape (ignoreDup : Bool) (linked : List Nat)
    (rvList : List String) (rvd : RvDict) (k d b : List StmtTpl)
    (h : processRvDict ignoreDup linked rvList rvd = some (k, d, b)) :
    ∃ best, pickBestRv rvList rvd = some best ∧
      b = ((rvd.filter (fun p => decide (p.1 ≠ best.1))).map
        (fun p => ridLeaves p.2)).flatten ∧
      (↑k + ↑d : Multiset StmtTpl) = ↑(ridLeaves best.2) := by
  cases ignoreDup with
  | true =>
    unfold processRvDict at h
    simp only [bind, Option.bind] at h
    cases hb : pickBestRv rvList rvd with
    | none => rw [hb] at h; cases h
    | some best =>
      rw [hb] at h
      dsimp only at h
      cases h
      refine ⟨best, rfl, rfl, ?_⟩
      rw [bestGroups_flatten]
      simp
  | false =>
    unfold processRvDict at h
    simp only [bind, Option.bind] at h
    cases hb : pickBestRv rvList rvd with
    | none => rw [hb] at h; cases h
    | some best =>
      rw [hb] at h
      dsimp only at h
      cases hde : detectExact linked (bestGroups best.2) with
      | none => rw [hde] at h; cases h
      | some r =>
        obtain ⟨dk, dd⟩ := r
        rw [hde] at h
        dsimp only at h
        cases h
        refine ⟨best, rfl, rfl, ?_⟩
        rw [detectExact_perm linked (bestGroups best.2) _ _ hde,
          bestGroups_flatten]

/-- Leaves of every reader version strictly worse than another version
present in the same dict end among the bettered leaves. -/
theorem processRvDict_bettered_mem (ignoreDup : Bool) (linked : List Nat)
    (rvList : List String) (rvd : RvDict) (k d b : List StmtTpl)
    (h : processRvDict ignoreDup linked rvList rvd = some (k, d, b)) :
    ∀ u ∈ rvd, ∀ v ∈ rvd, rvWorse rvList u v → ∀ t ∈ ridLeaves u.2, t ∈ b := by
  obtain ⟨best, hb, hbeq, _⟩ := processRvDict_shape ignoreDup linked rvList rvd k d b h
  rintro u hu v hv ⟨iu, iv, hiu, hiv, hlt⟩ t ht
  obtain ⟨hmem, hmax⟩ := pickBestRv_spec rvList rvd best hb
  obtain ⟨iv2, jb, hiv2, hjb, hle⟩ := hmax v hv
  rw [hiv] at hiv2
  cases hiv2
  have hne : ¬ u.1 = best.1 := by
    intro hh
    rw [hh, hjb] at hiu
    cases hiu
    omega
  rw [hbeq]
  refine List.mem_flatten.mpr ⟨ridLeaves u.2, ?_, ht⟩
  exact List.mem_map.mpr ⟨u, List.mem_filter.mpr ⟨hu, by simpa using hne⟩, rfl⟩

/-- The kept, duplicate and bettered pairs of one rv_dict are bounded by its
leaves, as multisets. -/
theorem processRvDict_le (ignoreDup : Bool) (linked : List Nat)
    (rvList : List String) (rvd : RvDict) (k d b : List StmtTpl)
    (h : processRvDict ignoreDup linked rvList rvd = some (k, d, b)) :
    (↑k + ↑d + ↑b : Multiset StmtTpl) ≤ ↑(rvLeaves rvd) := by
  obtain ⟨best, hb, hbeq, hkd⟩ := processRvDict_shape ignoreDup linked rvList rvd k d b h
  obtain ⟨hmem, _⟩ := pickBestRv_spec rvList rvd best hb
  rw [hkd, hbeq]
  exact rv_filter_le best rvd hmem

/-- The reader loop over a list of rv_dicts: its output is bounded by the
dicts' leaves and contains every single dict's bettered leaves. -/
theorem processRvDicts_spec (ignoreDup : Bool) (linked : List Nat)
    (rvList : List String) :
    ∀ vds k d b, processRvDicts ignoreDup linked rvList vds = some (k, d, b) →
      ((↑k + ↑d + ↑b : Multiset StmtTpl) ≤ ↑((vds.map rvLeaves).flatten)) ∧
      (∀ vd ∈ vds, ∃ kv dv bv,
        processRvDict ignoreDup linked rvList vd = some (kv, dv, bv) ∧
        ∀ t ∈ bv, t ∈ b)
  | [], k, d, b, h => by
    simp only [processRvDicts] at h
    cases h
    exact ⟨by simp, by simp⟩
  | vd :: vds, k, d, b, h => by
    simp only [processRvDicts, bind, Option.bind] at h
    cases h1 : processRvDict ignoreDup linked rvList vd with
    | none => rw [h1] at h; cases h
    | some r =>
      obtain ⟨k1, d1, b1⟩ := r
      rw [h1] at h
      dsimp only at h
      cases h2 : processRvDicts ignoreDup linked rvList vds with
      | none => rw [h2] at h; cases h
      | some r2 =>
        obtain ⟨k2, d2, b2⟩ := r2
        rw [h2] at h
        dsimp only at h
        cases h
        obtain ⟨ihle, ihmem⟩ := processRvDicts_spec ignoreDup linked rvList vds k2 d2 b2 h2
        constructor
        · have h1le := processRvDict_le ignoreDup linked rvList vd k1 d1 b1 h1
          simp only [List.map_cons, List.flatten_cons, ← Multiset.coe_add]
          calc (↑k1 + ↑k2 : Multiset StmtTpl) + (↑d1 + ↑d2) + (↑b1 + ↑b2)
              = (↑k1 + ↑d1 + ↑b1) + (↑k2 + ↑d2 + ↑b2) := by abel
            _ ≤ ↑(rvLeaves vd) + ↑((vds.map rvLeaves).flatten) :=
              add_le_add h1le ihle
        · intro vd0 hvd0
          rcases List.mem_cons.mp hvd0 with hh | hh
          · subst hh
            exact ⟨k1, d1, b1, h1, fun t ht => List.mem_append_left _ ht⟩
          · obtain ⟨kv, dv, bv, hp, hsub⟩ := ihmem vd0 hh
            exact ⟨kv, dv, bv, hp, fun t ht => List.mem_append_right _ (hsub t ht)⟩

/-- The loop over the reader table: its output is bounded by the per-reader
gets leaves and contains every reader's bettered leaves. -/
theorem processReaders_spec (ignoreDup : Bool) (linked : List Nat) (sd1 : SrcDict) :
    ∀ rs k d b, processReaders ignoreDup linked sd1 rs = some (k, d, b) →
      ((↑k + ↑d + ↑b : Multiset StmtTpl) ≤
        ↑((rs.map (fun rv => ((getsReader sd1 rv.1).map rvLeaves).flatten)).flatten)) ∧
      (∀ reader rvList, (reader, rvList) ∈ rs →
        ∃ kr dr br,
          processRvDicts ignoreDup linked rvList (getsReader sd1 reader) =
            some (kr, dr, br) ∧ ∀ t ∈ br, t ∈ b)
  | [], k, d, b, h => by
    simp only [processReaders] at h
    cases h
    exact ⟨by simp, by simp⟩
  | (reader, rvList) :: rs, k, d, b, h => by
    simp only [processReaders, bind, Option.bind] at h
    cases h1 : processRvDicts ignoreDup linked rvList (getsReader sd1 reader) with
    | none => rw [h1] at h; cases h
    | some r =>
      obtain ⟨k1, d1, b1⟩ := r
      rw [h1] at h
      dsimp only at h
      cases h2 : processReaders ignoreDup linked sd1 rs with
      | none => rw [h2] at h; cases h
      | some r2 =>
        obtain ⟨k2, d2, b2⟩ := r2
        rw [h2] at h
        dsimp only at h
        cases h
        obtain ⟨ihle, ihmem⟩ := processReaders_spec ignoreDup linked sd1 rs k2 d2 b2 h2
        constructor
        · have h1le := (processRvDicts_spec ignoreDup linked rvList
            (getsReader sd1 reader) k1 d1 b1 h1).1
          simp only [List.map_cons, List.flatten_cons, ← Multiset.coe_add]
          calc (↑k1 + ↑k2 : Multiset StmtTpl) + (↑d1 + ↑d2) + (↑b1 + ↑b2)
              = (↑k1 + ↑d1 + ↑b1) + (↑k2 + ↑d2 + ↑b2) := by abel
            _ ≤ ↑(((getsReader sd1 reader).map rvLeaves).flatten) +
                ↑((rs.map (fun rv => ((getsReader sd1 rv.1).map rvLeaves).flatten)).flatten) :=
              add_le_add h1le ihle
        · intro reader0 rvList0 hmem0
          rcases List.mem_cons.mp hmem0 with hh | hh
          · cases hh
            exact ⟨k1, d1, b1, h1, fun t ht => List.mem_append_left _ ht⟩
          · obtain ⟨kr, dr, br, hp, hsub⟩ := ihmem reader0 rvList0 hh
            exact ⟨kr, dr, br, hp, fun t ht => List.mem_append_right _ (hsub t ht)⟩

/-- Unfolding the gets leaves of one reader dict. -/
theorem rdrGets_eq (reader : String) (rd : RdrDict) :
    (((rd.filter (fun r => decide (r.1 = reader))).map Prod.snd).map rvLeaves).flatten =
      rdrGetsLeaves reader rd := by
  simp [rdrGetsLeaves, List.map_map]
  rfl

/-- Unfolding the gets leaves of one text_content dict. -/
theorem tcGets_eq (reader : String) :
    ∀ td : TcDict,
      (((td.map (fun q =>
          (q.2.filter (fun r => decide (r.1 = reader))).map Prod.snd)).flatten).map
        rvLeaves).flatten = tcGetsLeaves reader td
  | [] => rfl
  | q :: td => by
    have ih := tcGets_eq reader td
    simp only [List.map_cons, List.flatten_cons, List.map_append, List.flatten_append]
    rw [rdrGets_eq, ih]
    simp [tcGetsLeaves]

/-- The gets traversal of the source dict, in leaf form. -/
theorem getsReader_leaves (reader : String) :
    ∀ sd : SrcDict,
      ((getsReader sd reader).map rvLeaves).flatten = srcGetsLeaves reader sd
  | [] => rfl
  | p :: sd => by
    have ih := getsReader_leaves reader sd
    simp only [getsReader, List.map_cons, List.flatten_cons, List.map_append,
      List.flatten_append] at ih ⊢
    rw [tcGets_eq, ih]
    simp [srcGetsLeaves]

/-- Gets leaves of one reader dict on a cons. -/
theorem rdrGetsLeaves_cons (r : String) (e : String × RvDict) (rd : RdrDict) :
    rdrGetsLeaves r (e :: rd) =
      (if e.1 = r then rvLeaves e.2 ++ rdrGetsLeaves r rd else rdrGetsLeaves r rd) := by
  by_cases hr : e.1 = r
  · simp [rdrGetsLeaves, List.filter_cons, hr]
  · simp [rdrGetsLeaves, List.filter_cons, hr]

/-- Two distinct readers select disjoint parts of one reader dict. -/
theorem rdrGetsLeaves_le (r1 r2 : String) (hne : ¬ r1 = r2) :
    ∀ rd : RdrDict,
      (↑(rdrGetsLeaves r1 rd) + ↑(rdrGetsLeaves r2 rd) : Multiset StmtTpl) ≤
        ↑(rdrLeaves rd)
  | [] => by simp [rdrGetsLeaves, rdrLeaves]
  | e :: rd => by
    have ih := rdrGetsLeaves_le r1 r2 hne rd
    have hleaves : (↑(rdrLeaves (e :: rd)) : Multiset StmtTpl) =
        ↑(rvLeaves e.2) + ↑(rdrLeaves rd) := by
      simp [rdrLeaves, Multiset.coe_add]
    rw [rdrGetsLeaves_cons, rdrGetsLeaves_cons, hleaves]
    by_cases h1 : e.1 = r1
    · have h2 : ¬ e.1 = r2 := fun hh => hne (h1.symm.trans hh)
      rw [if_pos h1, if_neg h2, ← Multiset.coe_add]
      calc (↑(rvLeaves e.2) + ↑(rdrGetsLeaves r1 rd) : Multiset StmtTpl) +
            ↑(rdrGetsLeaves r2 rd)
          = ↑(rvLeaves e.2) + (↑(rdrGetsLeaves r1 rd) + ↑(rdrGetsLeaves r2 rd)) := by
            abel
        _ ≤ ↑(rvLeaves e.2) + ↑(rdrLeaves rd) := add_le_add_left ih _
    · by_cases h2 : e.1 = r2
      · rw [if_neg h1, if_pos h2, ← Multiset.coe_add]
        calc (↑(rdrGetsLeaves r1 rd) : Multiset StmtTpl) +
              (↑(rvLeaves e.2) + ↑(rdrGetsLeaves r2 rd))
            = ↑(rvLeaves e.2) + (↑(rdrGetsLeaves r1 rd) + ↑(rdrGetsLeaves r2 rd)) := by
              abel
          _ ≤ ↑(rvLeaves e.2) + ↑(rdrLeaves rd) := add_le_add_left ih _
      · rw [if_neg h1, if_neg h2]
        exact le_trans ih le_add_self

/-- Gets leaves of one text_content dict on a cons. -/
theorem tcGetsLeaves_cons (r : String) (q : Nat × RdrDict) (td : TcDict) :
    tcGetsLeaves r (q :: td) = rdrGetsLeaves r q.2 ++ tcGetsLeaves r td := by
  simp [tcGetsLeaves]

/-- The leaves of one text_content dict on a cons. -/
theorem tcLeaves_cons (q : Nat × RdrDict) (td : TcDict) :
    tcLeaves (q :: td) = rdrLeaves q.2 ++ tcLeaves td := by
  simp [tcLeaves]

/-- Two distinct readers select disjoint parts of one text_content dict. -/
theorem tcGetsLeaves_le (r1 r2 : String) (hne : ¬ r1 = r2) :
    ∀ td : TcDict,
      (↑(tcGetsLeaves r1 td) + ↑(tcGetsLeaves r2 td) : Multiset StmtTpl) ≤
        ↑(tcLeaves td)
  | [] => by simp [tcGetsLeaves, tcLeaves]
  | q :: td => by
    have ih := tcGetsLeaves_le r1 r2 hne td
    have h1 := rdrGetsLeaves_le r1 r2 hne q.2
    rw [tcGetsLeaves_cons, tcGetsLeaves_cons, tcLeaves_cons, ← Multiset.coe_add,
      ← Multiset.coe_add, ← Multiset.coe_add]
    calc (↑(rdrGetsLeaves r1 q.2) + ↑(tcGetsLeaves r1 td) : Multiset StmtTpl) +
          (↑(rdrGetsLeaves r2 q.2) + ↑(tcGetsLeaves r2 td))
        = (↑(rdrGetsLeaves r1 q.2) + ↑(rdrGetsLeaves r2 q.2)) +
          (↑(tcGetsLeaves r1 td) + ↑(tcGetsLeaves r2 td)) := by abel
      _ ≤ ↑(rdrLeaves q.2) + ↑(tcLeaves td) := add_le_add h1 ih

/-- Gets leaves of the source dict on a cons. -/
theorem srcGetsLeaves_cons (r : String) (p : String × TcDict) (sd : SrcDict) :
    srcGetsLeaves r (p :: sd) = tcGetsLeaves r p.2 ++ srcGetsLeaves r sd := by
  simp [srcGetsLeaves]

/-- The leaves of the source dict on a cons. -/
theorem srcLeaves_cons (p : String × TcDict) (sd : SrcDict) :
    srcLeaves (p :: sd) = tcLeaves p.2 ++ srcLeaves sd := by
  simp [srcLeaves]

/-- Two distinct readers select disjoint parts of the source dict. -/
theorem srcGetsLeaves_le (r1 r2 : String) (hne : ¬ r1 = r2) :
    ∀ sd : SrcDict,
      (↑(srcGetsLeaves r1 sd) + ↑(srcGetsLeaves r2 sd) : Multiset StmtTpl) ≤
        ↑(srcLeaves sd)
  | [] => by simp [srcGetsLeaves, srcLeaves]
  | p :: sd => by
    have ih := srcGetsLeaves_le r1 r2 hne sd
    have h1 := tcGetsLeaves_le r1 r2 hne p.2
    rw [srcGetsLeaves_cons, srcGetsLeaves_cons, srcLeaves_cons, ← Multiset.coe_add,
      ← Multiset.coe_add, ← Multiset.coe_add]
    calc (↑(tcGetsLeaves r1 p.2) + ↑(srcGetsLeaves r1 sd) : Multiset StmtTpl) +
          (↑(tcGetsLeaves r2 p.2) + ↑(srcGetsLeaves r2 sd))
        = (↑(tcGetsLeaves r1 p.2) + ↑(tcGetsLeaves r2 p.2)) +
          (↑(srcGetsLeaves r1 sd) + ↑(srcGetsLeaves r2 sd)) := by abel
      _ ≤ ↑(tcLeaves p.2) + ↑(srcLeaves sd) := add_le_add h1 ih

/-- The text-ref processing decomposes into the source loop and the reader
loop on the surviving dict. -/
theorem processTr_shape (ignoreDup : Bool) (linked : List Nat) (sd : SrcDict)
    (k d b : List StmtTpl) (h : processTr ignoreDup linked sd = some (k, d, b)) :
    ∃ sd1 bettS kr dr br, srcLoop sd = some (sd1, bettS) ∧
      processReaders ignoreDup linked sd1 reader_versions = some (kr, dr, br) ∧
      k = kr ∧ d = dr ∧ b = bettS ++ br := by
  unfold processTr at h
  simp only [bind, Option.bind] at h
  cases h1 : srcLoop sd with
  | none => rw [h1] at h; cases h
  | some r =>
    obtain ⟨sd1, bettS⟩ := r
    rw [h1] at h
    dsimp only at h
    cases h2 : processReaders ignoreDup linked sd1 reader_versions with
    | none => rw [h2] at h; cases h
    | some r2 =>
      obtain ⟨kr, dr, br⟩ := r2
      rw [h2] at h
      dsimp only at h
      cases h
      exact ⟨sd1, bettS, k, d, br, rfl, h2, rfl, rfl, rfl⟩

/-- The kept, duplicate and bettered pairs of one text ref are bounded by the
text ref's leaves, as multisets. -/
theorem processTr_le (ignoreDup : Bool) (linked : List Nat) (sd : SrcDict)
    (k d b : List StmtTpl) (h : processTr ignoreDup linked sd = some (k, d, b)) :
    (↑k + ↑d + ↑b : Multiset StmtTpl) ≤ ↑(srcLeaves sd) := by
  obtain ⟨sd1, bettS, kr, dr, br, h1, h2, hk, hd2, hb⟩ :=
    processTr_shape ignoreDup linked sd k d b h
  subst hk
  subst hd2
  subst hb
  have hreaders := (processReaders_spec ignoreDup linked sd1 reader_versions
    k d br h2).1
  have hflat : ((reader_versions.map
      (fun rv => ((getsReader sd1 rv.1).map rvLeaves).flatten)).flatten) =
      ((getsReader sd1 ("sparser")).map rvLeaves).flatten ++
        (((getsReader sd1 ("reach")).map rvLeaves).flatten ++ []) := by
    simp [reader_versions]
  rw [hflat, getsReader_leaves, getsReader_leaves, List.append_nil] at hreaders
  rw [← Multiset.coe_add] at hreaders
  have hsg := srcGetsLeaves_le ("sparser") ("reach") (by decide) sd1
  have hperm := srcLoopF_perm sd.length sd sd1 bettS h1
  calc (↑k + ↑d + ↑(bettS ++ br) : Multiset StmtTpl)
      = (↑k + ↑d + ↑br) + ↑bettS := by
        rw [← Multiset.coe_add]
        abel
    _ ≤ ↑(srcLeaves sd1) + ↑bettS :=
        add_le_add_right (le_trans hreaders hsg) _
    _ = ↑(srcLeaves sd) := by
        rw [add_comm]
        exact hperm

/-- The leaves of the whole tree on a cons. -/
theorem allTplsND_cons (tr : Nat × SrcDict) (nd : StmtND) :
    allTplsND (tr :: nd) = srcLeaves tr.2 ++ allTplsND nd := by
  simp [allTplsND]

/-- The reading-derived filtering loop: its kept, duplicate and bettered
statement ids are a sub-multiset of the tree's leaf ids, and each text ref's
bettered leaves end in the bettered set. -/
theorem rdg_core_spec (ignoreDup : Bool) (linked : List Nat) :
    ∀ nd out, get_filtered_rdg_stmts_core ignoreDup linked nd = some out →
      ((↑(tplSids out.kept) + ↑out.dupSids + ↑out.betteredSids : Multiset Nat) ≤
        ↑(tplSids (allTplsND nd))) ∧
      (∀ tr ∈ nd, ∃ k d b, processTr ignoreDup linked tr.2 = some (k, d, b) ∧
        ∀ t ∈ b, t.1 ∈ out.betteredSids)
  | [], out, h => by
    simp only [get_filtered_rdg_stmts_core] at h
    cases h
    exact ⟨by simp [tplSids], by simp⟩
  | (trid, sd) :: rest, out, h => by
    simp only [get_filtered_rdg_stmts_core, bind, Option.bind] at h
    cases h1 : processTr ignoreDup linked sd with
    | none => rw [h1] at h; cases h
    | some p =>
      obtain ⟨k, d, b⟩ := p
      rw [h1] at h
      dsimp only at h
      cases h2 : get_filtered_rdg_stmts_core ignoreDup linked rest with
      | none => rw [h2] at h; cases h
      | some r2 =>
        rw [h2] at h
        dsimp only at h
        cases h
        obtain ⟨ihle, ihmem⟩ := rdg_core_spec ignoreDup linked rest r2 h2
        have hTr := processTr_le ignoreDup linked sd k d b h1
        constructor
        · have hmap : (↑(tplSids k) + ↑(tplSids d) + ↑(tplSids b) : Multiset Nat) ≤
              ↑(tplSids (srcLeaves sd)) := by
            have hm := Multiset.map_le_map (f := Prod.fst) hTr
            rw [Multiset.map_add, Multiset.map_add, Multiset.map_coe,
              Multiset.map_coe, Multiset.map_coe, Multiset.map_coe] at hm
            exact hm
          rw [allTplsND_cons]
          simp only [tplSids, List.map_append, ← Multiset.coe_add]
          calc (↑(k.map Prod.fst) + ↑(r2.kept.map Prod.fst) : Multiset Nat) +
                (↑(d.map Prod.fst) + ↑r2.dupSids) +
                (↑(b.map Prod.fst) + ↑r2.betteredSids)
              = (↑(k.map Prod.fst) + ↑(d.map Prod.fst) + ↑(b.map Prod.fst)) +
                (↑(r2.kept.map Prod.fst) + ↑r2.dupSids + ↑r2.betteredSids) := by
                abel
            _ ≤ ↑((srcLeaves sd).map Prod.fst) + ↑((allTplsND rest).map Prod.fst) :=
                add_le_add hmap ihle
        · intro tr htr
          rcases List.mem_cons.mp htr with hh | hh
          · subst hh
            refine ⟨k, d, b, h1, ?_⟩
            intro t ht
            exact List.mem_append_left _ (List.mem_map.mpr ⟨t, ht, rfl⟩)
          · obtain ⟨k2, d2, b2, hp, hsub⟩ := ihmem tr hh
            exact ⟨k2, d2, b2, hp, fun t ht => List.mem_append_right _ (hsub t ht)⟩

/-- C2: for every text ref of the statement tree, every statement id under a
source tier strictly less preferred than another tier present is classified
as a bettered duplicate and never appears among the kept statements; and
within the surviving source tier, for each reader of the reader table, every
statement id under a reader version strictly less preferred than another
version present of that reader is classified as a bettered duplicate and
never appears among the kept statements.  The hypotheses are that the run
succeeds and that statement ids are not repeated across leaves (they are
database primary keys). -/
theorem rdg_bettered_classification (ignoreDup : Bool) (linked : List Nat)
    (nd : StmtND) (out : RdgRes)
    (hrun : get_filtered_rdg_stmts_core ignoreDup linked nd = some out)
    (hnd : (tplSids (allTplsND nd)).Nodup) :
    ∀ tr ∈ nd,
      (∀ e ∈ tr.2, ∀ f ∈ tr.2, srcWorse e f → ∀ t ∈ tcLeaves e.2,
        t.1 ∈ out.betteredSids ∧ t.1 ∉ tplSids out.kept) ∧
      (∀ sd1 bettS, srcLoop tr.2 = some (sd1, bettS) →
        ∀ rv ∈ reader_versions, ∀ vd ∈ getsReader sd1 rv.1,
          ∀ u ∈ vd, ∀ v ∈ vd, rvWorse rv.2 u v → ∀ t ∈ ridLeaves u.2,
            t.1 ∈ out.betteredSids ∧ t.1 ∉ tplSids out.kept) := by
  obtain ⟨hle, hmem⟩ := rdg_core_spec ignoreDup linked nd out hrun
  have hdisj : ∀ s, s ∈ out.betteredSids → s ∉ tplSids out.kept := by
    intro s hsC hsA
    have h1 : ((↑(tplSids out.kept) + ↑out.dupSids + ↑out.betteredSids :
        Multiset Nat)).Nodup :=
      Multiset.nodup_of_le hle (Multiset.coe_nodup.mpr hnd)
    have h2 := (Multiset.nodup_add.mp h1).2.2
    exact (Multiset.disjoint_left.mp h2
      (by rw [Multiset.mem_add]; exact Or.inl (Multiset.mem_coe.mpr hsA)))
      (Multiset.mem_coe.mpr hsC)
  intro tr htr
  obtain ⟨k, d, b, hTr, hbmem⟩ := hmem tr htr
  obtain ⟨sd1', bettS', kr, dr, br, hsl, hpr, hk, hd2, hb⟩ :=
    processTr_shape ignoreDup linked tr.2 k d b hTr
  constructor
  · rintro e he f hf hw t ht
    have hbett : t ∈ bettS' :=
      srcLoopF_bettered tr.2.length tr.2 sd1' bettS' hsl e he f hf hw t ht
    have htb : t ∈ b := by
      rw [hb]
      exact List.mem_append_left _ hbett
    exact ⟨hbmem t htb, hdisj _ (hbmem t htb)⟩
  · intro sd1 bettS hsl2 rv hrv vd hvd u hu v hv hw t ht
    obtain ⟨reader, rvList⟩ := rv
    rw [hsl] at hsl2
    cases hsl2
    obtain ⟨kr2, dr2, br2, hpd, hsub2⟩ :=
      (processReaders_spec ignoreDup linked sd1' reader_versions kr dr br hpr).2
        reader rvList hrv
    obtain ⟨kv, dv, bv, hpv, hsub3⟩ :=
      (processRvDicts_spec ignoreDup linked rvList (getsReader sd1' reader)
        kr2 dr2 br2 hpd).2 vd hvd
    have htv : t ∈ bv :=
      processRvDict_bettered_mem ignoreDup linked rvList vd kv dv bv hpv
        u hu v hv hw t ht
    have htb : t ∈ b := by
      rw [hb]
      exact List.mem_append_right _ (hsub2 _ (hsub3 _ htv))
    exact ⟨hbmem t htb, hdisj _ (hbmem t htb)⟩

/-- Witness for C2 on the example tree: every statement id under the pubmed
tier, bettered by the pmc_oa tier, is classified as bettered and is not
kept. -/
theorem rdg_bettered_classification_witness :
    (get_filtered_rdg_stmts_core false [] ndExample = some outExample) ∧
    ((tplSids (allTplsND ndExample)).Nodup) ∧
    (∀ t ∈ tcLeaves tcExampleA,
      t.1 ∈ outExample.betteredSids ∧ t.1 ∉ tplSids outExample.kept) :=
  ⟨by decide, by decide,
   fun t ht =>
     ((rdg_bettered_classification false [] ndExample outExample (by decide)
        (by decide) (1, [("pubmed", tcExampleA), ("pmc_oa", tcExampleB)])
        (by decide)).1 ("pubmed", tcExampleA) (by decide)
        ("pmc_oa", tcExampleB) (by decide)
        ⟨0, 3, by decide, by decide, by decide⟩ t ht)⟩

end IndraDb
